import Mathlib

/-!
# A verification development for `restfront/response`

The package wraps an `http.ResponseWriter` (the *sink*) and offers named
outcome methods (`Ok`, `BadRequest`, `Error`, ...) that all funnel into
`writeResponse`.  The development is a shallow embedding:

* the parts of the Go standard library the package calls (`http.Header`,
  `http.ResponseWriter`, `json.Encoder.Encode`, `http.StatusText`) are
  modelled first, as pure functions on an explicit sink state;
* the package itself (`response.go`, `error.go`, `success.go`) is translated
  function by function, each method returning the receiver after the call;
* the theorems come last.

A Go string that reaches the JSON encoder (a string payload, the text of
`Error()`, a message) is a sequence of bytes, `GoString`, since the encoder
treats the bytes that are no valid UTF-8 in a way of their own; header names,
header values and the bytes handed to the sink are modelled by `String`.  Go
`int` is `Int` (no arithmetic is performed on status codes, so the width
plays no role).
-/

namespace Restfront

/-! ## `net/textproto`: canonical header keys -/

/-- The token characters of RFC 7230, `validHeaderFieldByte` in net/textproto:
letters, digits and the punctuation marks `!#$%&'*+-.^_|~` with the grave accent. -/
def validHeaderFieldByte (c : Char) : Bool :=
  let n := c.toNat
  (48 ≤ n && n ≤ 57) || (65 ≤ n && n ≤ 90) || (97 ≤ n && n ≤ 122) ||
    [33, 35, 36, 37, 38, 39, 42, 43, 45, 46, 94, 95, 96, 124, 126].contains n

/-- The canonicalising loop of `canonicalMIMEHeaderKey`: the first letter and
every letter after a dash is made upper case, every other letter lower case.
`upper` tells whether the next character starts a word. -/
def canonicalLoop : Bool → List Char → List Char
  | _, [] => []
  | upper, c :: cs =>
    let n := c.toNat
    let c1 : Char :=
      if upper && (97 ≤ n && n ≤ 122) then Char.ofNat (n - 32)
      else if !upper && (65 ≤ n && n ≤ 90) then Char.ofNat (n + 32)
      else c
    c1 :: canonicalLoop (c1.toNat == 45) cs

/-- The function `textproto.CanonicalMIMEHeaderKey`: a key holding a character
that is no token character is returned unchanged, every other key is
canonicalised (`content-type` becomes `Content-Type`). -/
def CanonicalMIMEHeaderKey (s : String) : String :=
  if s.toList.all validHeaderFieldByte then String.mk (canonicalLoop true s.toList) else s

/-! ## `net/http`: the header map -/

/-- The type `http.Header`, a `map[string][]string`, as an association list
that holds every key at most once. -/
structure Header where
  entries : List (String × List String)
  deriving DecidableEq, Repr

namespace Header

/-- The map read `h[key]`, `none` when the key is absent. -/
def lookup (h : Header) (key : String) : Option (List String) :=
  (h.entries.find? (fun e => e.1 == key)).map (fun e => e.2)

/-- The map write `h[key] = vs`. -/
def store (h : Header) (key : String) (vs : List String) : Header :=
  ⟨(key, vs) :: h.entries.filter (fun e => !(e.1 == key))⟩

/-- The map deletion `delete(h, key)`. -/
def remove (h : Header) (key : String) : Header :=
  ⟨h.entries.filter (fun e => !(e.1 == key))⟩

/-- The method `Header.Add`: `h[key] = append(h[key], value)` at the canonical key. -/
def Add (h : Header) (key value : String) : Header :=
  let k := CanonicalMIMEHeaderKey key
  h.store k ((h.lookup k).getD [] ++ [value])

/-- The method `Header.Set`: `h[key] = []string{value}` at the canonical key. -/
def Set (h : Header) (key value : String) : Header :=
  h.store (CanonicalMIMEHeaderKey key) [value]

/-- The method `Header.Del`: `delete(h, key)` at the canonical key. -/
def Del (h : Header) (key : String) : Header :=
  h.remove (CanonicalMIMEHeaderKey key)

/-- The method `Header.Values`: all values held for the key. -/
def Values (h : Header) (key : String) : List String :=
  (h.lookup (CanonicalMIMEHeaderKey key)).getD []

/-- The method `Header.Get`: the first value held for the key, or the empty string. -/
def Get (h : Header) (key : String) : String :=
  match h.lookup (CanonicalMIMEHeaderKey key) with
  | some (v :: _) => v
  | _ => ""

end Header

/-! ## `net/http`: the sink -/

/-- One call the package makes on the sink, in the words of the caller. -/
inductive SinkCall where
  | headerAdd (key value : String)
  | headerSet (key value : String)
  | headerDel (key : String)
  | WriteHeader (statusCode : Int)
  | Write (bytes : String)
  deriving DecidableEq, Repr

/-- The interface `http.ResponseWriter`, seen from the caller: the header map
handed out by `Header()` and the calls received so far, oldest first.  Every
call is taken to return normally.  What an implementation does with a call
is outside the package and not modelled: the writers of net/http send the
first status only, and reject a status outside 100..999 by panicking. -/
structure ResponseWriter where
  header : Header
  calls : List SinkCall
  deriving DecidableEq, Repr

namespace ResponseWriter

/-- The call `w.Header().Add(key, value)`. -/
def headerAdd (w : ResponseWriter) (key value : String) : ResponseWriter :=
  { header := w.header.Add key value, calls := w.calls ++ [SinkCall.headerAdd key value] }

/-- The call `w.Header().Set(key, value)`. -/
def headerSet (w : ResponseWriter) (key value : String) : ResponseWriter :=
  { header := w.header.Set key value, calls := w.calls ++ [SinkCall.headerSet key value] }

/-- The call `w.Header().Del(key)`. -/
def headerDel (w : ResponseWriter) (key : String) : ResponseWriter :=
  { header := w.header.Del key, calls := w.calls ++ [SinkCall.headerDel key] }

/-- The call `w.WriteHeader(statusCode)`. -/
def WriteHeader (w : ResponseWriter) (statusCode : Int) : ResponseWriter :=
  { w with calls := w.calls ++ [SinkCall.WriteHeader statusCode] }

/-- The call `w.Write(bytes)`. -/
def Write (w : ResponseWriter) (bytes : String) : ResponseWriter :=
  { w with calls := w.calls ++ [SinkCall.Write bytes] }

/-- The status codes written so far, oldest first. -/
def statusWrites (w : ResponseWriter) : List Int :=
  w.calls.filterMap (fun c => match c with
    | SinkCall.WriteHeader s => some s
    | _ => none)

/-- The body chunks written so far, oldest first. -/
def bodyWrites (w : ResponseWriter) : List String :=
  w.calls.filterMap (fun c => match c with
    | SinkCall.Write b => some b
    | _ => none)

/-- The field `Code` of an `httptest.ResponseRecorder`: the first status
written, 200 when there is none. -/
def Code (w : ResponseWriter) : Int :=
  w.statusWrites.headD 200

/-- The field `Body` of an `httptest.ResponseRecorder`: all bytes written. -/
def Body (w : ResponseWriter) : String :=
  String.join w.bodyWrites

end ResponseWriter

/-- A sink as `httptest.NewRecorder()` hands it out: no header, no call yet. -/
def NewRecorder : ResponseWriter :=
  { header := ⟨[]⟩, calls := [] }

/-! ## Go strings and `unicode/utf8` -/

/-- A byte. -/
abbrev Byte := Fin 256

/-- A Go string: a sequence of bytes, which need not be valid UTF-8. -/
abbrev GoString := List Byte

/-- The UTF-8 encoding of a character (RFC 3629), as `utf8.AppendRune` writes it. -/
def utf8Char (c : Char) : List Byte :=
  let n := c.toNat
  if n < 128 then [Fin.ofNat n]
  else if n < 2048 then [Fin.ofNat (192 + n / 64), Fin.ofNat (128 + n % 64)]
  else if n < 65536 then
    [Fin.ofNat (224 + n / 4096), Fin.ofNat (128 + n / 64 % 64), Fin.ofNat (128 + n % 64)]
  else
    [Fin.ofNat (240 + n / 262144), Fin.ofNat (128 + n / 4096 % 64),
      Fin.ofNat (128 + n / 64 % 64), Fin.ofNat (128 + n % 64)]

/-- The UTF-8 encoding of a sequence of characters. -/
def utf8Chars : List Char → GoString
  | [] => []
  | c :: cs => utf8Char c ++ utf8Chars cs

/-- The Go string that holds a text: its UTF-8 encoding.  The Go strings of
this form are the valid UTF-8 strings. -/
def utf8 (t : String) : GoString :=
  utf8Chars t.toList

/-- The table `acceptRanges` of unicode/utf8, lower bounds: the least second
byte a first byte accepts. -/
def acceptLo (s0 : Nat) : Nat :=
  if s0 = 224 then 160 else if s0 = 240 then 144 else 128

/-- The table `acceptRanges` of unicode/utf8, upper bounds: the greatest second
byte a first byte accepts. -/
def acceptHi (s0 : Nat) : Nat :=
  if s0 = 237 then 159 else if s0 = 244 then 143 else 191

/-- The function `utf8.DecodeRuneInString` on a non-empty string: the rune at
the front and the bytes after it, or `none` where Go returns `RuneError` with
width 1.  The second byte must lie in the range the first one accepts, the
third and fourth between 0x80 and 0xBF. -/
def DecodeRune : GoString → Option (Char × GoString)
  | [] => none
  | b0 :: bs =>
    let s0 := b0.val
    if s0 < 128 then some (Char.ofNat s0, bs)
    else if s0 < 194 ∨ 244 < s0 then none
    else
      match bs with
      | [] => none
      | b1 :: bs1 =>
        let s1 := b1.val
        if s1 < acceptLo s0 ∨ acceptHi s0 < s1 then none
        else if s0 < 224 then some (Char.ofNat (s0 % 32 * 64 + s1 % 64), bs1)
        else
          match bs1 with
          | [] => none
          | b2 :: bs2 =>
            let s2 := b2.val
            if s2 < 128 ∨ 191 < s2 then none
            else if s0 < 240 then
              some (Char.ofNat (s0 % 16 * 4096 + s1 % 64 * 64 + s2 % 64), bs2)
            else
              match bs2 with
              | [] => none
              | b3 :: bs3 =>
                let s3 := b3.val
                if s3 < 128 ∨ 191 < s3 then none
                else
                  some (Char.ofNat (s0 % 8 * 262144 + s1 % 64 * 4096 + s2 % 64 * 64 + s3 % 64),
                    bs3)

/-! ## `net/http`: status codes and their texts -/

abbrev StatusOK : Int := 200
abbrev StatusCreated : Int := 201
abbrev StatusAccepted : Int := 202
abbrev StatusNoContent : Int := 204
abbrev StatusBadRequest : Int := 400
abbrev StatusUnauthorized : Int := 401
abbrev StatusForbidden : Int := 403
abbrev StatusNotFound : Int := 404
abbrev StatusMethodNotAllowed : Int := 405
abbrev StatusUnprocessableEntity : Int := 422
abbrev StatusTooManyRequests : Int := 429
abbrev StatusInternalServerError : Int := 500
abbrev StatusServiceUnavailable : Int := 503

/-- The table behind `http.StatusText`. -/
def statusTexts : List (Int × String) :=
  [(100, "Continue"), (101, "Switching Protocols"), (102, "Processing"), (103, "Early Hints"),
   (200, "OK"), (201, "Created"), (202, "Accepted"), (203, "Non-Authoritative Information"),
   (204, "No Content"), (205, "Reset Content"), (206, "Partial Content"), (207, "Multi-Status"),
   (208, "Already Reported"), (226, "IM Used"),
   (300, "Multiple Choices"), (301, "Moved Permanently"), (302, "Found"), (303, "See Other"),
   (304, "Not Modified"), (305, "Use Proxy"), (307, "Temporary Redirect"),
   (308, "Permanent Redirect"),
   (400, "Bad Request"), (401, "Unauthorized"), (402, "Payment Required"), (403, "Forbidden"),
   (404, "Not Found"), (405, "Method Not Allowed"), (406, "Not Acceptable"),
   (407, "Proxy Authentication Required"), (408, "Request Timeout"), (409, "Conflict"),
   (410, "Gone"), (411, "Length Required"), (412, "Precondition Failed"),
   (413, "Request Entity Too Large"), (414, "Request URI Too Long"),
   (415, "Unsupported Media Type"), (416, "Requested Range Not Satisfiable"),
   (417, "Expectation Failed"), (418, "I\x27m a teapot"), (421, "Misdirected Request"),
   (422, "Unprocessable Entity"), (423, "Locked"), (424, "Failed Dependency"),
   (425, "Too Early"), (426, "Upgrade Required"), (428, "Precondition Required"),
   (429, "Too Many Requests"), (431, "Request Header Fields Too Large"),
   (451, "Unavailable For Legal Reasons"),
   (500, "Internal Server Error"), (501, "Not Implemented"), (502, "Bad Gateway"),
   (503, "Service Unavailable"), (504, "Gateway Timeout"), (505, "HTTP Version Not Supported"),
   (506, "Variant Also Negotiates"), (507, "Insufficient Storage"), (508, "Loop Detected"),
   (510, "Not Extended"), (511, "Network Authentication Required")]

/-- The function `http.StatusText`: the text of a known code, otherwise the empty string. -/
def StatusText (code : Int) : GoString :=
  utf8 (((statusTexts.find? (fun e => e.1 == code)).map (fun e => e.2)).getD "")

/-! ## `encoding/json`: what the encoder writes -/

/-- The backslash. -/
def backslash : Char := Char.ofNat 92

/-- The double quote. -/
def dquote : Char := Char.ofNat 34

/-- The table `htmlSafeSet` of encoding/json: the ASCII characters written as
they are, which is every printable one and DEL except the double quote, the
backslash and the three characters `<`, `>` and `&`. -/
def htmlSafeSet (n : Nat) : Bool :=
  32 ≤ n && n < 128 && n != 34 && n != 38 && n != 60 && n != 62 && n != 92

/-- The lower-case hexadecimal digit of a number below sixteen. -/
def hex (n : Nat) : Char :=
  "0123456789abcdef".toList.getD n '0'

/-- What `appendString` of encoding/json writes for one rune, HTML escaping on
as it is for a new `Encoder`: an ASCII character outside `htmlSafeSet` is
escaped, so are U+2028 and U+2029, every other character is copied. -/
def escapeChar (c : Char) : List Char :=
  let n := c.toNat
  if n < 128 then
    if htmlSafeSet n then [c]
    else if n = 92 ∨ n = 34 then [backslash, c]
    else if n = 8 then [backslash, 'b']
    else if n = 12 then [backslash, 'f']
    else if n = 10 then [backslash, 'n']
    else if n = 13 then [backslash, 'r']
    else if n = 9 then [backslash, 't']
    else [backslash, 'u', '0', '0', hex (n / 16), hex (n % 16)]
  else if n = 8232 ∨ n = 8233 then [backslash, 'u', '2', '0', '2', hex (n % 16)]
  else [c]

/-- The escaped form of a sequence of characters, each one by `escapeChar`. -/
def escapeAll : List Char → List Char
  | [] => []
  | c :: cs => escapeChar c ++ escapeAll cs

/-- The loop of `appendString` of encoding/json, HTML escaping on: an ASCII
byte is written as it is or escaped, an invalid byte becomes the escape of
U+FFFD, the runes U+2028 and U+2029 are escaped and every other rune is
copied.  Each round consumes at least one byte, so `fuel` rounds are enough
for a string of `fuel` bytes. -/
def appendStringLoop : Nat → GoString → List Char
  | 0, _ => []
  | _ + 1, [] => []
  | fuel + 1, b :: rest =>
    if b.val < 128 then escapeChar (Char.ofNat b.val) ++ appendStringLoop fuel rest
    else
      match DecodeRune (b :: rest) with
      | none => [backslash, 'u', 'f', 'f', 'f', 'd'] ++ appendStringLoop fuel rest
      | some (c, rest1) =>
        if c.toNat = 8232 ∨ c.toNat = 8233 then
          [backslash, 'u', '2', '0', '2', hex (c.toNat % 16)] ++ appendStringLoop fuel rest1
        else c :: appendStringLoop fuel rest1

/-- The function `appendString` of encoding/json: a Go string as a JSON string literal. -/
def appendString (src : GoString) : String :=
  String.mk (dquote :: (appendStringLoop src.length src ++ [dquote]))

/-- A Go `int` in decimal, as `strconv.AppendInt` writes it. -/
def formatInt : Int → String
  | Int.ofNat n => Nat.repr n
  | Int.negSucc n => "-" ++ Nat.repr (n + 1)

/-- One member `"name":value` of a JSON object. -/
def encodeMember (m : String × String) : String :=
  String.mk [dquote] ++ m.1 ++ String.mk [dquote] ++ ":" ++ m.2

/-- A JSON object as the struct encoder writes it: the members in order,
separated by commas, between braces. -/
def encodeObject (members : List (String × String)) : String :=
  "\x7b" ++ ",".intercalate (members.map encodeMember) ++ "\x7d"

/-! ## `response.go`: the data model -/

/-- The struct `ResponseResult`, the envelope: `StatusCode` carries the tag
`json:"code,omitempty"`, `Message` the tag `json:"message"`. -/
structure ResponseResult where
  StatusCode : Int
  Message : GoString
  deriving DecidableEq, Repr

/-- A non-nil Go value whose dynamic type is neither `string` nor
`*ResponseResult`, described by what the package can observe of it: the text
its `Error()` method returns when the type implements `error`, the results of
`HTTPStatusCode()` and `Message()` when it implements `appError`, and the
bytes `json.Marshal` produces for it (`none` when marshalling fails, as for a
channel, a function or a NaN).  Methods are taken to return normally. -/
structure Value where
  errorText : Option GoString
  appError : Option (Int × GoString)
  json : Option String
  deriving DecidableEq, Repr

/-- A value of the Go type `any`, as the outcome methods receive it. -/
inductive Any where
  | nil
  | string (v : GoString)
  | responseResult (r : ResponseResult)
  | value (v : Value)
  deriving DecidableEq, Repr

namespace Any

/-- The type assertion `data.(error)`: the text of `Error()` when the dynamic
type implements `error`.  Neither `string` nor `*ResponseResult` has a method. -/
def asError : Any → Option GoString
  | value v => v.errorText
  | _ => none

/-- The type assertion `data.(string)`. -/
def asString : Any → Option GoString
  | string v => some v
  | _ => none

/-- The type assertion `data.(appError)`: the results of `HTTPStatusCode()` and
`Message()` when the dynamic type has both methods. -/
def asAppError : Any → Option (Int × GoString)
  | value v => v.appError
  | _ => none

end Any

/-- The members the struct encoder writes for a `ResponseResult`: `code` is
left out when it is the zero value (`omitempty`), `message` is always there. -/
def ResponseResult.members (r : ResponseResult) : List (String × String) :=
  (if r.StatusCode = 0 then [] else [("code", formatInt r.StatusCode)]) ++
    [("message", appendString r.Message)]

/-- The function `json.Marshal` on a value of type `any`. -/
def Marshal : Any → Option String
  | Any.nil => some "null"
  | Any.string v => some (appendString v)
  | Any.responseResult r => some (encodeObject r.members)
  | Any.value v => v.json

/-- The call `json.NewEncoder(w).Encode(data)`, its error dropped: the value is
marshalled, and when that succeeds the bytes and a newline go to the sink in
one `Write`; when it fails nothing is written. -/
def Encode (w : ResponseWriter) (data : Any) : ResponseWriter :=
  match Marshal data with
  | some b => w.Write (b ++ "\n")
  | none => w

/-- The struct `Response`: the sink and the writer's own header map.  A method
with a pointer receiver is a function that returns the receiver after the call. -/
structure Response where
  writer : ResponseWriter
  headers : List (String × String)
  deriving DecidableEq, Repr

/-- The constructor `New`. -/
def New (w : ResponseWriter) : Response :=
  { writer := w, headers := [("Content-Type", "application/json")] }

/-- The constructor `newResponseResult`. -/
def newResponseResult (statusCode : Int) (message : GoString) : ResponseResult :=
  { StatusCode := statusCode, Message := message }

namespace Response

/-! ## `response.go`: the methods -/

/-- The method `AddHeader`; it returns its receiver. -/
def AddHeader (resp : Response) (key value : String) : Response :=
  { resp with writer := resp.writer.headerAdd key value }

/-- The method `DeleteHeader`; it returns its receiver. -/
def DeleteHeader (resp : Response) (key : String) : Response :=
  { resp with writer := resp.writer.headerDel key }

/-- The method `writeHeaders`: every entry of the writer's own map is `Set` on
the sink.  The entries are visited in list order. -/
def writeHeaders (resp : Response) : Response :=
  { resp with writer := resp.headers.foldl (fun w e => w.headerSet e.1 e.2) resp.writer }

/-- The method `writeStatusCode`. -/
def writeStatusCode (resp : Response) (statusCode : Int) : Response :=
  { resp with writer := resp.writer.WriteHeader statusCode }

/-- The method `writeResponse`: headers, status, and for a non-nil payload the
body, an error value or a string being wrapped in an envelope first. -/
def writeResponse (resp : Response) (statusCode : Int) (data : Any) : Response :=
  let resp := resp.writeHeaders
  let resp := resp.writeStatusCode statusCode
  if data ≠ Any.nil then
    let data :=
      match data.asError with
      | some msg => Any.responseResult (newResponseResult statusCode msg)
      | none =>
        match data.asString with
        | some v => Any.responseResult (newResponseResult statusCode v)
        | none => data
    { resp with writer := Encode resp.writer data }
  else resp

/-! ## `error.go` -/

/-- The method `Error`: the status and message are taken from the payload, the
`appError` capability first, then `string`, then `error`, then the default. -/
def Error (resp : Response) (data : Any) : Response :=
  let sm : Int × GoString :=
    match data.asAppError with
    | some (code, msg) => (code, msg)
    | none =>
      match data.asString with
      | some v => (StatusInternalServerError, v)
      | none =>
        match data.asError with
        | some msg => (StatusInternalServerError, msg)
        | none => (StatusInternalServerError, StatusText StatusInternalServerError)
  resp.writeResponse sm.1 (Any.responseResult (newResponseResult sm.1 sm.2))

def BadRequest (resp : Response) (data : Any) : Response :=
  resp.writeResponse StatusBadRequest data

def Unauthorized (resp : Response) (data : Any) : Response :=
  resp.writeResponse StatusUnauthorized data

def Forbidden (resp : Response) (data : Any) : Response :=
  resp.writeResponse StatusForbidden data

def NotFound (resp : Response) (data : Any) : Response :=
  resp.writeResponse StatusNotFound data

def MethodNotAllowed (resp : Response) (data : Any) : Response :=
  resp.writeResponse StatusMethodNotAllowed data

def UnprocessableEntity (resp : Response) (data : Any) : Response :=
  resp.writeResponse StatusUnprocessableEntity data

def InternalServerError (resp : Response) (data : Any) : Response :=
  resp.writeResponse StatusInternalServerError data

def ServiceUnavailable (resp : Response) (data : Any) : Response :=
  resp.writeResponse StatusServiceUnavailable data

def TooManyRequests (resp : Response) (data : Any) : Response :=
  resp.writeResponse StatusTooManyRequests data

/-! ## `success.go` -/

def Success (resp : Response) (data : Any) : Response :=
  resp.writeResponse StatusOK data

def Ok (resp : Response) (data : Any) : Response :=
  resp.writeResponse StatusOK data

def Created (resp : Response) (data : Any) : Response :=
  resp.writeResponse StatusCreated data

def Accepted (resp : Response) (data : Any) : Response :=
  resp.writeResponse StatusAccepted data

def NoContent (resp : Response) : Response :=
  resp.writeResponse StatusNoContent Any.nil

end Response

/-! ## The vocabulary of the specification -/

/-- The fixed-status outcome methods that take a payload. -/
inductive FixedMethod where
  | Success | Ok | Created | Accepted
  | BadRequest | Unauthorized | Forbidden | NotFound | MethodNotAllowed
  | UnprocessableEntity | TooManyRequests | InternalServerError | ServiceUnavailable
  deriving DecidableEq, Repr

namespace FixedMethod

/-- The method of the package that a name stands for. -/
def call : FixedMethod → Response → Any → Response
  | Success => Response.Success
  | Ok => Response.Ok
  | Created => Response.Created
  | Accepted => Response.Accepted
  | BadRequest => Response.BadRequest
  | Unauthorized => Response.Unauthorized
  | Forbidden => Response.Forbidden
  | NotFound => Response.NotFound
  | MethodNotAllowed => Response.MethodNotAllowed
  | UnprocessableEntity => Response.UnprocessableEntity
  | TooManyRequests => Response.TooManyRequests
  | InternalServerError => Response.InternalServerError
  | ServiceUnavailable => Response.ServiceUnavailable

/-- The status the specification gives for each method. -/
def status : FixedMethod → Int
  | Success => 200
  | Ok => 200
  | Created => 201
  | Accepted => 202
  | BadRequest => 400
  | Unauthorized => 401
  | Forbidden => 403
  | NotFound => 404
  | MethodNotAllowed => 405
  | UnprocessableEntity => 422
  | TooManyRequests => 429
  | InternalServerError => 500
  | ServiceUnavailable => 503

end FixedMethod

/-- A call of an outcome method: a fixed-status method with its payload,
`NoContent`, or `Error` with its payload. -/
inductive Outcome where
  | fixed (M : FixedMethod) (data : Any)
  | NoContent
  | Error (data : Any)
  deriving DecidableEq, Repr

/-- The call of an outcome method on a writer. -/
def Outcome.run : Outcome → Response → Response
  | Outcome.fixed M data, resp => M.call resp data
  | Outcome.NoContent, resp => resp.NoContent
  | Outcome.Error data, resp => resp.Error data

/-- A call of a header method. -/
inductive HeaderCall where
  | AddHeader (key value : String)
  | DeleteHeader (key : String)
  deriving DecidableEq, Repr

/-- The call of a header method on a writer. -/
def HeaderCall.run : HeaderCall → Response → Response
  | HeaderCall.AddHeader key value, resp => resp.AddHeader key value
  | HeaderCall.DeleteHeader key, resp => resp.DeleteHeader key

/-- A chain of header calls, made in list order. -/
def runHeaderCalls (resp : Response) (cs : List HeaderCall) : Response :=
  cs.foldl (fun r c => c.run r) resp

/-- The text a Go string stands for once every byte that is no valid UTF-8 is
replaced by U+FFFD, the runes read as `appendString` reads them. -/
def replaceInvalid : Nat → GoString → List Char
  | 0, _ => []
  | _ + 1, [] => []
  | fuel + 1, b :: rest =>
    if b.val < 128 then Char.ofNat b.val :: replaceInvalid fuel rest
    else
      match DecodeRune (b :: rest) with
      | none => Char.ofNat 65533 :: replaceInvalid fuel rest
      | some (c, rest1) => c :: replaceInvalid fuel rest1

/-- The text of a Go string, every byte that is no valid UTF-8 replaced by U+FFFD. -/
def messageText (g : GoString) : String :=
  String.mk (replaceInvalid g.length g)

/-- The JSON string literal of a text, with the escapes encoding/json uses. -/
def jsonString (t : String) : String :=
  String.mk (dquote :: (escapeAll t.toList ++ [dquote]))

/-- The JSON document `{"code":c,"message":s}` of the specification, `s` a text. -/
def envelopeJSON (c : Int) (s : String) : String :=
  encodeObject [("code", formatInt c), ("message", jsonString s)]

/-- The JSON document `{"message":s}` of the specification, `s` a text. -/
def messageOnlyJSON (s : String) : String :=
  encodeObject [("message", jsonString s)]

/-- The message the specification gives for `Error` on a payload without the
status and message capability: the payload when it is a string, the text of
`Error()` when it is an error value, the text of status 500 otherwise. -/
def fallbackMessage : Any → GoString
  | Any.string s => s
  | Any.value v => v.errorText.getD (utf8 "Internal Server Error")
  | _ => utf8 "Internal Server Error"

/-- The header write every outcome method of a writer made by `New` starts with. -/
def contentTypeSet : SinkCall :=
  SinkCall.headerSet "Content-Type" "application/json"

/-- The body `writeResponse` hands to the sink: nothing for a nil payload, the
envelope for an error value or a string, the payload's own JSON otherwise. -/
def bodyOf (statusCode : Int) (data : Any) : Option String :=
  if data = Any.nil then none
  else
    match data.asError with
    | some msg => some (encodeObject (ResponseResult.members ⟨statusCode, msg⟩) ++ "\n")
    | none =>
      match data.asString with
      | some v => some (encodeObject (ResponseResult.members ⟨statusCode, v⟩) ++ "\n")
      | none => (Marshal data).map (fun b => b ++ "\n")

/-! ## Reading the body back: a decoder for the envelope -/

/-- The value of a hexadecimal digit. -/
def hexValue (c : Char) : Option Nat :=
  let n := c.toNat
  if 48 ≤ n ∧ n ≤ 57 then some (n - 48)
  else if 97 ≤ n ∧ n ≤ 102 then some (n - 87)
  else if 65 ≤ n ∧ n ≤ 70 then some (n - 55)
  else none

/-- The character a one-letter escape of a JSON string stands for. -/
def simpleEscape (c : Char) : Option Char :=
  let n := c.toNat
  if n = 34 ∨ n = 92 ∨ n = 47 then some c
  else if n = 98 then some (Char.ofNat 8)
  else if n = 102 then some (Char.ofNat 12)
  else if n = 110 then some (Char.ofNat 10)
  else if n = 114 then some (Char.ofNat 13)
  else if n = 116 then some (Char.ofNat 9)
  else none

/-- Where the reader of a JSON string literal stands: in plain text, right
after a backslash, or inside a `\u` escape with some digits still to come. -/
inductive ReadMode where
  | plain
  | escaped
  | hex (remaining : Nat) (acc : Nat)

/-- Puts a character in front of what the reader returns. -/
def consRead (c : Char) : Option (List Char × List Char) → Option (List Char × List Char)
  | some (s, rest) => some (c :: s, rest)
  | none => none

/-- Reads a JSON string literal after its opening quote (RFC 8259): the text
it denotes and what follows the closing quote. -/
def readString : ReadMode → List Char → Option (List Char × List Char)
  | _, [] => none
  | ReadMode.plain, c :: cs =>
    if c.toNat = 34 then some ([], cs)
    else if c.toNat = 92 then readString ReadMode.escaped cs
    else if c.toNat < 32 then none
    else consRead c (readString ReadMode.plain cs)
  | ReadMode.escaped, c :: cs =>
    if c.toNat = 117 then readString (ReadMode.hex 4 0) cs
    else
      match simpleEscape c with
      | some d => consRead d (readString ReadMode.plain cs)
      | none => none
  | ReadMode.hex 0 _, _ :: _ => none
  | ReadMode.hex (k + 1) acc, c :: cs =>
    match hexValue c with
    | none => none
    | some v =>
      if k = 0 then consRead (Char.ofNat (acc * 16 + v)) (readString ReadMode.plain cs)
      else readString (ReadMode.hex k (acc * 16 + v)) cs

/-- The value of a decimal digit. -/
def digitValue (c : Char) : Option Nat :=
  if 48 ≤ c.toNat ∧ c.toNat ≤ 57 then some (c.toNat - 48) else none

/-- Reads decimal digits as long as there are any, most significant first. -/
def readDigits : Nat → List Char → Nat × List Char
  | acc, [] => (acc, [])
  | acc, c :: cs =>
    match digitValue c with
    | some d => readDigits (acc * 10 + d) cs
    | none => (acc, c :: cs)

/-- Reads a natural number in decimal: at least one digit. -/
def readNat : List Char → Option (Nat × List Char)
  | [] => none
  | c :: cs => if (digitValue c).isSome then some (readDigits 0 (c :: cs)) else none

/-- Reads an integer in decimal, with a minus sign when negative. -/
def readInt : List Char → Option (Int × List Char)
  | [] => none
  | c :: cs =>
    if c.toNat = 45 then (readNat cs).map (fun nr => (-(nr.1 : Int), nr.2))
    else (readNat (c :: cs)).map (fun nr => ((nr.1 : Int), nr.2))

/-- Drops an expected run of characters from the front. -/
def expect : List Char → List Char → Option (List Char)
  | [], cs => some cs
  | _ :: _, [] => none
  | p :: ps, c :: cs => if p = c then expect ps cs else none

/-- The characters `"code":`. -/
def codeKey : List Char :=
  dquote :: ("code".toList ++ [dquote, ':'])

/-- The characters `"message":`. -/
def messageKey : List Char :=
  dquote :: ("message".toList ++ [dquote, ':'])

/-- Reads the member `"message":"..."`, the closing brace and the end of the
document, a newline being allowed there. -/
def readMessage (cs : List Char) : Option String :=
  match expect (messageKey ++ [dquote]) cs with
  | none => none
  | some cs1 =>
    match readString ReadMode.plain cs1 with
    | none => none
    | some (m, cs2) =>
      if cs2 = [Char.ofNat 125] ∨ cs2 = [Char.ofNat 125, Char.ofNat 10] then some (String.mk m)
      else none

/-- The envelope a compact JSON document denotes: its code, when it has the
member `code`, and its message. -/
def decodeEnvelope (body : String) : Option (Option Int × String) :=
  match body.toList with
  | [] => none
  | c :: cs =>
    if c.toNat = 123 then
      match expect codeKey cs with
      | some cs1 =>
        match readInt cs1 with
        | none => none
        | some (code, cs2) =>
          match expect [','] cs2 with
          | none => none
          | some cs3 => (readMessage cs3).map (fun m => (some code, m))
      | none => (readMessage cs).map (fun m => (none, m))
    else none

/-! ## Lemmas on the header map -/

theorem Header.lookup_store_self (h : Header) (k : String) (vs : List String) :
    (h.store k vs).lookup k = some vs := by
  simp [Header.lookup, Header.store]

theorem Header.lookup_remove_self (h : Header) (k : String) :
    (h.remove k).lookup k = none := by
  simp [Header.lookup, Header.remove, List.find?_eq_none]

theorem Header.find_filter_ne (l : List (String × List String)) (k key : String)
    (hne : key ≠ k) :
    (l.filter (fun e => !(e.1 == k))).find? (fun e => e.1 == key) =
      l.find? (fun e => e.1 == key) := by
  induction l with
  | nil => rfl
  | cons e t ih =>
    obtain ⟨a, b⟩ := e
    by_cases h1 : a = k
    · subst h1
      have hb : (a == key) = false := by
        simpa using fun e => hne e.symm
      simp [List.filter_cons, List.find?_cons, hb, ih]
    · have hb1 : (a == k) = false := by simpa using h1
      by_cases h2 : a = key
      · subst h2
        simp [List.filter_cons, List.find?_cons, hb1]
      · have hb2 : (a == key) = false := by simpa using h2
        simp [List.filter_cons, List.find?_cons, hb1, hb2, ih]

theorem Header.lookup_store_ne (h : Header) (k key : String) (vs : List String)
    (hne : key ≠ k) : (h.store k vs).lookup key = h.lookup key := by
  have hk : ¬ k = key := fun e => hne e.symm
  simp [Header.lookup, Header.store, List.find?_cons, hk, Header.find_filter_ne _ _ _ hne]

theorem Header.lookup_remove_ne (h : Header) (k key : String) (hne : key ≠ k) :
    (h.remove k).lookup key = h.lookup key := by
  simp [Header.lookup, Header.remove, Header.find_filter_ne _ _ _ hne]

/-! ## Lemmas on UTF-8 and the string encoder -/

theorem Char.valid_toNat (c : Char) :
    c.toNat < 55296 ∨ (57343 < c.toNat ∧ c.toNat < 1114112) := by
  have := c.valid
  unfold UInt32.isValidChar Nat.isValidChar at this
  exact this

theorem Byte.val_ofNat (n : Nat) (h : n < 256) : (Fin.ofNat n : Byte).val = n := by
  show n % 256 = n
  omega

theorem utf8Char_length_pos (c : Char) : 1 ≤ (utf8Char c).length := by
  unfold utf8Char
  simp only []
  split
  · simp
  · split
    · simp
    · split <;> simp

theorem DecodeRune_two (b0 b1 : Byte) (rest : GoString)
    (h0 : 194 ≤ b0.val) (h0' : b0.val < 224) (h1 : 128 ≤ b1.val) (h1' : b1.val ≤ 191) :
    DecodeRune (b0 :: b1 :: rest) =
      some (Char.ofNat (b0.val % 32 * 64 + b1.val % 64), rest) := by
  have a1 : ¬ b0.val < 128 := by omega
  have a2 : ¬ (b0.val < 194 ∨ 244 < b0.val) := by omega
  have a3 : ¬ b0.val = 224 := by omega
  have a4 : ¬ b0.val = 240 := by omega
  have a5 : ¬ b0.val = 237 := by omega
  have a6 : ¬ b0.val = 244 := by omega
  have a7 : ¬ (b1.val < 128 ∨ 191 < b1.val) := by omega
  simp only [DecodeRune, acceptLo, acceptHi, a1, a2, a3, a4, a5, a6, a7, h0', if_true, if_false]

theorem DecodeRune_three (b0 b1 b2 : Byte) (rest : GoString)
    (h0 : 224 ≤ b0.val) (h0' : b0.val < 240) (h1 : 128 ≤ b1.val) (h1' : b1.val ≤ 191)
    (hlo : b0.val = 224 → 160 ≤ b1.val) (hhi : b0.val = 237 → b1.val ≤ 159)
    (h2 : 128 ≤ b2.val) (h2' : b2.val ≤ 191) :
    DecodeRune (b0 :: b1 :: b2 :: rest) =
      some (Char.ofNat (b0.val % 16 * 4096 + b1.val % 64 * 64 + b2.val % 64), rest) := by
  have a1 : ¬ b0.val < 128 := by omega
  have a2 : ¬ (b0.val < 194 ∨ 244 < b0.val) := by omega
  have a4 : ¬ b0.val = 240 := by omega
  have a6 : ¬ b0.val = 244 := by omega
  have a8 : ¬ b0.val < 224 := by omega
  have a9 : ¬ (b2.val < 128 ∨ 191 < b2.val) := by omega
  by_cases e224 : b0.val = 224
  · have a5 : ¬ b0.val = 237 := by omega
    have a7 : ¬ (b1.val < 160 ∨ 191 < b1.val) := by
      have := hlo e224
      omega
    simp only [DecodeRune, acceptLo, acceptHi, a1, a2, a4, a5, a6, a7, a8, a9, e224, h0', if_true, if_false]
    simp [e224]
    omega
  · by_cases e237 : b0.val = 237
    · have a7 : ¬ (b1.val < 128 ∨ 159 < b1.val) := by
        have := hhi e237
        omega
      simp only [DecodeRune, acceptLo, acceptHi, a1, a2, a4, a6, a7, a8, a9, e224, e237, h0', if_true, if_false]
      simp [e237]
      omega
    · have a7 : ¬ (b1.val < 128 ∨ 191 < b1.val) := by omega
      simp only [DecodeRune, acceptLo, acceptHi, a1, a2, a4, a6, a7, a8, a9, e224, e237, h0', if_true, if_false]

theorem DecodeRune_four (b0 b1 b2 b3 : Byte) (rest : GoString)
    (h0 : 240 ≤ b0.val) (h0' : b0.val ≤ 244) (h1 : 128 ≤ b1.val) (h1' : b1.val ≤ 191)
    (hlo : b0.val = 240 → 144 ≤ b1.val) (hhi : b0.val = 244 → b1.val ≤ 143)
    (h2 : 128 ≤ b2.val) (h2' : b2.val ≤ 191) (h3 : 128 ≤ b3.val) (h3' : b3.val ≤ 191) :
    DecodeRune (b0 :: b1 :: b2 :: b3 :: rest) =
      some (Char.ofNat (b0.val % 8 * 262144 + b1.val % 64 * 4096 + b2.val % 64 * 64 +
        b3.val % 64), rest) := by
  have a1 : ¬ b0.val < 128 := by omega
  have a2 : ¬ (b0.val < 194 ∨ 244 < b0.val) := by omega
  have a3 : ¬ b0.val = 224 := by omega
  have a5 : ¬ b0.val = 237 := by omega
  have a8 : ¬ b0.val < 224 := by omega
  have a8' : ¬ b0.val < 240 := by omega
  have a9 : ¬ (b2.val < 128 ∨ 191 < b2.val) := by omega
  have a10 : ¬ (b3.val < 128 ∨ 191 < b3.val) := by omega
  by_cases e240 : b0.val = 240
  · have a6 : ¬ b0.val = 244 := by omega
    have a7 : ¬ (b1.val < 144 ∨ 191 < b1.val) := by
      have := hlo e240
      omega
    simp only [DecodeRune, acceptLo, acceptHi, a1, a2, a3, a5, a6, a7, a8, a8', a9, a10, e240, if_true, if_false]
    simp [e240]
    omega
  · by_cases e244 : b0.val = 244
    · have a7 : ¬ (b1.val < 128 ∨ 143 < b1.val) := by
        have := hhi e244
        omega
      simp only [DecodeRune, acceptLo, acceptHi, a1, a2, a3, a5, a7, a8, a8', a9, a10, e240, e244, if_true, if_false]
      simp [e244]
      omega
    · have a7 : ¬ (b1.val < 128 ∨ 191 < b1.val) := by omega
      simp only [DecodeRune, acceptLo, acceptHi, a1, a2, a3, a5, a7, a8, a8', a9, a10, e240, e244, if_true, if_false]

theorem DecodeRune_utf8Char (c : Char) (hc : 128 ≤ c.toNat) (rest : GoString) :
    ∃ b bs, utf8Char c ++ rest = b :: bs ∧ 128 ≤ b.val ∧
      DecodeRune (b :: bs) = some (c, rest) := by
  have hv := Char.valid_toNat c
  have hcc := Char.ofNat_toNat c
  generalize hn : c.toNat = n at *
  have h1 : ¬ n < 128 := by omega
  by_cases h2 : n < 2048
  · have e0 : (Fin.ofNat (192 + n / 64) : Byte).val = 192 + n / 64 := Byte.val_ofNat _ (by omega)
    have e1 : (Fin.ofNat (128 + n % 64) : Byte).val = 128 + n % 64 := Byte.val_ofNat _ (by omega)
    refine ⟨Fin.ofNat (192 + n / 64), Fin.ofNat (128 + n % 64) :: rest, ?_, by omega, ?_⟩
    · simp [utf8Char, hn, h1, h2]
    · rw [DecodeRune_two _ _ _ (by omega) (by omega) (by omega) (by omega), e0, e1]
      have hr : (192 + n / 64) % 32 * 64 + (128 + n % 64) % 64 = n := by omega
      rw [hr, hcc]
  · by_cases h3 : n < 65536
    · have e0 : (Fin.ofNat (224 + n / 4096) : Byte).val = 224 + n / 4096 :=
        Byte.val_ofNat _ (by omega)
      have e1 : (Fin.ofNat (128 + n / 64 % 64) : Byte).val = 128 + n / 64 % 64 :=
        Byte.val_ofNat _ (by omega)
      have e2 : (Fin.ofNat (128 + n % 64) : Byte).val = 128 + n % 64 :=
        Byte.val_ofNat _ (by omega)
      refine ⟨Fin.ofNat (224 + n / 4096),
        Fin.ofNat (128 + n / 64 % 64) :: Fin.ofNat (128 + n % 64) :: rest, ?_, by omega, ?_⟩
      · simp [utf8Char, hn, h1, h2, h3]
      · rw [DecodeRune_three _ _ _ _ (by omega) (by omega) (by omega) (by omega)
          (by omega) (by omega) (by omega) (by omega), e0, e1, e2]
        have hr : (224 + n / 4096) % 16 * 4096 + (128 + n / 64 % 64) % 64 * 64 +
            (128 + n % 64) % 64 = n := by omega
        rw [hr, hcc]
    · have e0 : (Fin.ofNat (240 + n / 262144) : Byte).val = 240 + n / 262144 :=
        Byte.val_ofNat _ (by omega)
      have e1 : (Fin.ofNat (128 + n / 4096 % 64) : Byte).val = 128 + n / 4096 % 64 :=
        Byte.val_ofNat _ (by omega)
      have e2 : (Fin.ofNat (128 + n / 64 % 64) : Byte).val = 128 + n / 64 % 64 :=
        Byte.val_ofNat _ (by omega)
      have e3 : (Fin.ofNat (128 + n % 64) : Byte).val = 128 + n % 64 :=
        Byte.val_ofNat _ (by omega)
      refine ⟨Fin.ofNat (240 + n / 262144),
        Fin.ofNat (128 + n / 4096 % 64) :: Fin.ofNat (128 + n / 64 % 64) ::
          Fin.ofNat (128 + n % 64) :: rest, ?_, by omega, ?_⟩
      · simp [utf8Char, hn, h1, h2, h3]
      · rw [DecodeRune_four _ _ _ _ _ (by omega) (by omega) (by omega) (by omega)
          (by omega) (by omega) (by omega) (by omega) (by omega) (by omega), e0, e1, e2, e3]
        have hr : (240 + n / 262144) % 8 * 262144 + (128 + n / 4096 % 64) % 64 * 4096 +
            (128 + n / 64 % 64) % 64 * 64 + (128 + n % 64) % 64 = n := by omega
        rw [hr, hcc]

theorem Char.toNat_ofNat_of_valid (k : Nat) (h : k < 55296 ∨ (57343 < k ∧ k < 1114112)) :
    (Char.ofNat k).toNat = k := by
  have hv : k.isValidChar := h
  unfold Char.ofNat
  rw [dif_pos hv]
  rfl

theorem acceptLo_spec (s : Nat) :
    128 ≤ acceptLo s ∧ (s ≠ 224 ∨ acceptLo s = 160) ∧ (s ≠ 240 ∨ acceptLo s = 144) := by
  unfold acceptLo
  split
  · omega
  · split <;> omega

theorem acceptHi_spec (s : Nat) :
    acceptHi s ≤ 191 ∧ (s ≠ 237 ∨ acceptHi s = 159) ∧ (s ≠ 244 ∨ acceptHi s = 143) := by
  unfold acceptHi
  split
  · omega
  · split <;> omega

theorem DecodeRune_ge (b : Byte) (rest rest1 : GoString) (c : Char) (hb : 128 ≤ b.val)
    (h : DecodeRune (b :: rest) = some (c, rest1)) : 128 ≤ c.toNat := by
  have a1 : ¬ b.val < 128 := by omega
  have hlo := acceptLo_spec b.val
  have hhi := acceptHi_spec b.val
  have fin : ∀ (k : Nat) (r : GoString), 128 ≤ k →
      (k < 55296 ∨ (57343 < k ∧ k < 1114112)) →
      some (Char.ofNat k, r) = some (c, rest1) → 128 ≤ c.toNat := by
    intro k r hk hv he
    simp only [Option.some.injEq, Prod.mk.injEq] at he
    rw [← he.1, Char.toNat_ofNat_of_valid k hv]
    exact hk
  simp only [DecodeRune, a1, if_false] at h
  repeat' split at h
  all_goals first
    | (simp at h; done)
    | exact fin _ _ (by omega) (by omega) h


theorem appendStringLoop_utf8Chars (cs : List Char) (fuel : Nat)
    (hf : (utf8Chars cs).length ≤ fuel) :
    appendStringLoop fuel (utf8Chars cs) = escapeAll cs := by
  induction cs generalizing fuel with
  | nil => cases fuel <;> rfl
  | cons c t ih =>
    have hpos := utf8Char_length_pos c
    simp only [utf8Chars, List.length_append] at hf
    cases fuel with
    | zero => omega
    | succ f =>
      have hf2 : (utf8Chars t).length ≤ f := by omega
      by_cases hc : c.toNat < 128
      · have hb : (Fin.ofNat c.toNat : Byte).val = c.toNat := Byte.val_ofNat _ (by omega)
        have hu : utf8Char c = [Fin.ofNat c.toNat] := by simp [utf8Char, hc]
        simp only [utf8Chars, hu, List.singleton_append, appendStringLoop, hb, hc, if_true,
          Char.ofNat_toNat, escapeAll, ih f hf2]
      · obtain ⟨b, bs, hbs, hb, hdec⟩ := DecodeRune_utf8Char c (by omega) (utf8Chars t)
        have hb2 : ¬ b.val < 128 := by omega
        have hesc : escapeChar c =
            if c.toNat = 8232 ∨ c.toNat = 8233 then
              [backslash, 'u', '2', '0', '2', hex (c.toNat % 16)]
            else [c] := by
          simp [escapeChar, hc]
        simp only [utf8Chars, hbs, appendStringLoop, hb2, if_false, hdec, escapeAll, hesc,
          ih f hf2]
        split <;> simp

/-- On the encoding of a text the encoder writes the JSON string literal of the text. -/
theorem appendString_utf8 (t : String) : appendString (utf8 t) = jsonString t := by
  simp only [appendString, jsonString, utf8]
  rw [appendStringLoop_utf8Chars _ _ (Nat.le_refl _)]

/-! ## Lemmas on the write routine -/

theorem foldl_headerSet_calls (hs : List (String × String)) (w : ResponseWriter) :
    (hs.foldl (fun w e => w.headerSet e.1 e.2) w).calls =
      w.calls ++ hs.map (fun e => SinkCall.headerSet e.1 e.2) := by
  induction hs generalizing w with
  | nil => simp
  | cons e t ih =>
    rw [List.foldl_cons, ih]
    simp [ResponseWriter.headerSet]

theorem foldl_headerSet_header (hs : List (String × String)) (w : ResponseWriter) :
    (hs.foldl (fun w e => w.headerSet e.1 e.2) w).header =
      hs.foldl (fun h e => h.Set e.1 e.2) w.header := by
  induction hs generalizing w with
  | nil => simp
  | cons e t ih =>
    rw [List.foldl_cons, ih]
    simp [ResponseWriter.headerSet]

theorem writeResponse_headers (resp : Response) (c : Int) (data : Any) :
    (resp.writeResponse c data).headers = resp.headers := by
  unfold Response.writeResponse
  by_cases hd : data = Any.nil <;>
    simp [hd, Response.writeHeaders, Response.writeStatusCode]

theorem writeResponse_header (resp : Response) (c : Int) (data : Any) :
    (resp.writeResponse c data).writer.header =
      resp.headers.foldl (fun h e => h.Set e.1 e.2) resp.writer.header := by
  unfold Response.writeResponse
  by_cases hd : data = Any.nil
  · simp [hd, Response.writeHeaders, Response.writeStatusCode, ResponseWriter.WriteHeader,
      foldl_headerSet_header]
  · simp only [hd, ne_eq, not_false_eq_true, if_true, Response.writeHeaders,
      Response.writeStatusCode, ResponseWriter.WriteHeader, Encode]
    split <;> simp [ResponseWriter.Write, foldl_headerSet_header]

theorem writeResponse_calls (resp : Response) (c : Int) (data : Any) :
    (resp.writeResponse c data).writer.calls =
      resp.writer.calls ++ resp.headers.map (fun e => SinkCall.headerSet e.1 e.2) ++
        [SinkCall.WriteHeader c] ++ (bodyOf c data).toList.map SinkCall.Write := by
  unfold Response.writeResponse bodyOf
  by_cases hd : data = Any.nil
  · simp [hd, Response.writeHeaders, Response.writeStatusCode, ResponseWriter.WriteHeader,
      foldl_headerSet_calls]
  · simp only [hd, ne_eq, not_false_eq_true, if_true, if_false, Response.writeHeaders,
      Response.writeStatusCode, ResponseWriter.WriteHeader, Encode, newResponseResult]
    cases he : data.asError with
    | some msg =>
      simp [Marshal, ResponseWriter.Write, foldl_headerSet_calls]
    | none =>
      cases hs : data.asString with
      | some v => simp [Marshal, ResponseWriter.Write, foldl_headerSet_calls]
      | none =>
        cases hm : Marshal data with
        | some b => simp [ResponseWriter.Write, foldl_headerSet_calls]
        | none => simp [foldl_headerSet_calls]

theorem New_writeResponse_calls (w : ResponseWriter) (c : Int) (data : Any) :
    ((New w).writeResponse c data).writer.calls =
      w.calls ++ [contentTypeSet, SinkCall.WriteHeader c] ++
        (bodyOf c data).toList.map SinkCall.Write := by
  rw [writeResponse_calls]
  simp [New, contentTypeSet]

theorem FixedMethod.call_eq (M : FixedMethod) (resp : Response) (data : Any) :
    M.call resp data = resp.writeResponse M.status data := by
  cases M <;> rfl

theorem members_of_ne_zero (c : Int) (s : String) (hc : c ≠ 0) :
    encodeObject (ResponseResult.members ⟨c, utf8 s⟩) = envelopeJSON c s := by
  simp [ResponseResult.members, envelopeJSON, hc, appendString_utf8]

theorem members_of_zero (s : String) :
    encodeObject (ResponseResult.members ⟨0, utf8 s⟩) = messageOnlyJSON s := by
  simp [ResponseResult.members, messageOnlyJSON, appendString_utf8]

theorem FixedMethod.status_ne_zero (M : FixedMethod) : M.status ≠ 0 := by
  cases M <;> simp [FixedMethod.status]

theorem runHeaderCalls_headers (resp : Response) (cs : List HeaderCall) :
    (runHeaderCalls resp cs).headers = resp.headers := by
  unfold runHeaderCalls
  induction cs generalizing resp with
  | nil => rfl
  | cons c t ih =>
    rw [List.foldl_cons, ih]
    cases c <;> rfl

theorem runHeaderCalls_bodyWrites (resp : Response) (cs : List HeaderCall) :
    (runHeaderCalls resp cs).writer.bodyWrites = resp.writer.bodyWrites := by
  unfold runHeaderCalls
  induction cs generalizing resp with
  | nil => rfl
  | cons c t ih =>
    rw [List.foldl_cons, ih]
    cases c <;>
      simp [HeaderCall.run, Response.AddHeader, Response.DeleteHeader,
        ResponseWriter.headerAdd, ResponseWriter.headerDel, ResponseWriter.bodyWrites,
        List.filterMap_append]

theorem Outcome.run_header (o : Outcome) (resp : Response) :
    (o.run resp).writer.header =
      resp.headers.foldl (fun h e => h.Set e.1 e.2) resp.writer.header := by
  cases o with
  | fixed M data => simp only [Outcome.run, FixedMethod.call_eq, writeResponse_header]
  | NoContent => simp only [Outcome.run, Response.NoContent, writeResponse_header]
  | Error data => simp only [Outcome.run, Response.Error, writeResponse_header]

theorem Outcome.run_headers (o : Outcome) (resp : Response) :
    (o.run resp).headers = resp.headers := by
  cases o with
  | fixed M data => simp only [Outcome.run, FixedMethod.call_eq, writeResponse_headers]
  | NoContent => simp only [Outcome.run, Response.NoContent, writeResponse_headers]
  | Error data => simp only [Outcome.run, Response.Error, writeResponse_headers]

theorem canonical_content_type : CanonicalMIMEHeaderKey "Content-Type" = "Content-Type" := by
  decide

/-- After an outcome method on a writer whose own map is the one `New` makes,
the sink's header map is the earlier one with the content type set. -/
theorem Outcome.run_header_default (o : Outcome) (resp : Response)
    (hd : resp.headers = [("Content-Type", "application/json")]) :
    (o.run resp).writer.header =
      resp.writer.header.store "Content-Type" ["application/json"] := by
  rw [Outcome.run_header, hd]
  simp [Header.Set, canonical_content_type]

theorem Error_eq_writeResponse (resp : Response) (data : Any) :
    ∃ (c : Int) (m : GoString),
      resp.Error data = resp.writeResponse c (Any.responseResult ⟨c, m⟩) :=
  ⟨_, _, rfl⟩

/-! ## Lemmas on the decoder -/

theorem readString_escapeChar_ascii (n : Nat) (hn : n < 128) (tail : List Char) :
    readString ReadMode.plain (escapeChar (Char.ofNat n) ++ tail) =
      consRead (Char.ofNat n) (readString ReadMode.plain tail) := by
  interval_cases n <;> rfl

theorem readString_escapeChar (c : Char) (tail : List Char) :
    readString ReadMode.plain (escapeChar c ++ tail) =
      consRead c (readString ReadMode.plain tail) := by
  by_cases h : c.toNat < 128
  · have hc : Char.ofNat c.toNat = c := Char.ofNat_toNat c
    have := readString_escapeChar_ascii c.toNat h tail
    rwa [hc] at this
  · by_cases h1 : c.toNat = 8232
    · have hc : c = Char.ofNat 8232 := by rw [← h1, Char.ofNat_toNat]
      subst hc
      rfl
    · by_cases h2 : c.toNat = 8233
      · have hc : c = Char.ofNat 8233 := by rw [← h2, Char.ofNat_toNat]
        subst hc
        rfl
      · have e : escapeChar c = [c] := by simp [escapeChar, h, h1, h2]
        have h34 : c.toNat ≠ 34 := by omega
        have h92 : c.toNat ≠ 92 := by omega
        have h32 : ¬ c.toNat < 32 := by omega
        simp [e, readString, h34, h92, h32]

theorem readString_escapeAll (cs rest : List Char) :
    readString ReadMode.plain (escapeAll cs ++ dquote :: rest) = some (cs, rest) := by
  induction cs with
  | nil => rfl
  | cons c t ih =>
    rw [escapeAll, List.append_assoc, readString_escapeChar, ih]
    rfl

theorem readString_appendStringLoop (fuel : Nat) (g : GoString) (rest : List Char) :
    readString ReadMode.plain (appendStringLoop fuel g ++ dquote :: rest) =
      some (replaceInvalid fuel g, rest) := by
  induction fuel generalizing g with
  | zero => rfl
  | succ f ih =>
    cases g with
    | nil => rfl
    | cons b t =>
      by_cases hb : b.val < 128
      · simp only [appendStringLoop, replaceInvalid, hb, if_true, List.append_assoc,
          readString_escapeChar, ih]
        rfl
      · simp only [appendStringLoop, replaceInvalid, hb, if_false]
        cases hd : DecodeRune (b :: t) with
        | none =>
          have hu : ∀ tail : List Char,
              readString ReadMode.plain ([backslash, 'u', 'f', 'f', 'f', 'd'] ++ tail) =
                consRead (Char.ofNat 65533) (readString ReadMode.plain tail) := fun _ => rfl
          simp only [List.append_assoc, hu, ih]
          rfl
        | some p =>
          obtain ⟨c, rest1⟩ := p
          have hc : ¬ c.toNat < 128 := by
            have := DecodeRune_ge b t rest1 c (by omega) hd
            omega
          have hesc : (if c.toNat = 8232 ∨ c.toNat = 8233 then
                [backslash, 'u', '2', '0', '2', hex (c.toNat % 16)] ++ appendStringLoop f rest1
              else c :: appendStringLoop f rest1) =
              escapeChar c ++ appendStringLoop f rest1 := by
            simp only [escapeChar, hc, if_false]
            split <;> rfl
          simp only [hesc, List.append_assoc, readString_escapeChar, ih]
          rfl

theorem replaceInvalid_utf8Chars (cs : List Char) :
    replaceInvalid (utf8Chars cs).length (utf8Chars cs) = cs := by
  have h1 := readString_appendStringLoop (utf8Chars cs).length (utf8Chars cs) []
  rw [appendStringLoop_utf8Chars _ _ (Nat.le_refl _), readString_escapeAll] at h1
  simp only [Option.some.injEq, Prod.mk.injEq, and_true] at h1
  exact h1.symm

/-- The text of the encoding of a text is that text. -/
theorem messageText_utf8 (t : String) : messageText (utf8 t) = t := by
  simp only [messageText, utf8, replaceInvalid_utf8Chars]
  rfl

theorem digitValue_digitChar (k : Nat) (hk : k < 10) :
    digitValue (Nat.digitChar k) = some k := by
  interval_cases k <;> rfl

theorem toDigitsCore_append (fuel n : Nat) (ds : List Char) :
    Nat.toDigitsCore 10 fuel n ds = Nat.toDigitsCore 10 fuel n [] ++ ds := by
  induction fuel generalizing n ds with
  | zero => simp [Nat.toDigitsCore]
  | succ f ih =>
    simp only [Nat.toDigitsCore]
    split
    · simp
    · rw [ih (n / 10) (Nat.digitChar (n % 10) :: ds), ih (n / 10) [Nat.digitChar (n % 10)]]
      simp

theorem readDigits_toDigitsCore (fuel n : Nat) (hf : n < fuel) (r : List Char) :
    ∃ c t, Nat.toDigitsCore 10 fuel n [] = c :: t ∧ (digitValue c).isSome = true ∧
      readDigits 0 (Nat.toDigitsCore 10 fuel n [] ++ r) = readDigits n r := by
  induction fuel generalizing n r with
  | zero => omega
  | succ f ih =>
    have hd : digitValue (Nat.digitChar (n % 10)) = some (n % 10) :=
      digitValue_digitChar _ (Nat.mod_lt _ (by decide))
    simp only [Nat.toDigitsCore]
    by_cases h0 : n / 10 = 0
    · have hn : n % 10 = n := by omega
      refine ⟨Nat.digitChar (n % 10), [], by simp [h0], by simp [hd], ?_⟩
      rw [hn] at hd
      simp [h0, readDigits, hd, hn]
    · have hlt : n / 10 < f := by omega
      obtain ⟨c, t, hct, hc, hr⟩ := ih (n / 10) hlt (Nat.digitChar (n % 10) :: r)
      refine ⟨c, t ++ [Nat.digitChar (n % 10)], ?_, hc, ?_⟩
      · simp [h0, toDigitsCore_append f (n / 10) [Nat.digitChar (n % 10)], hct]
      · simp only [h0, if_false, toDigitsCore_append f (n / 10) [Nat.digitChar (n % 10)],
          List.append_assoc, List.singleton_append]
        rw [hr]
        have hn : n / 10 * 10 + n % 10 = n := by omega
        simp [readDigits, hd, hn]

theorem readInt_formatInt (i : Int) (r : List Char)
    (hr : ∀ c t, r = c :: t → digitValue c = none) :
    readInt ((formatInt i).toList ++ r) = some (i, r) := by
  have stop : ∀ n : Nat, readDigits n r = (n, r) := by
    intro n
    cases r with
    | nil => rfl
    | cons c t => simp [readDigits, hr c t rfl]
  cases i with
  | ofNat n =>
    obtain ⟨c, t, hct, hc, hrd⟩ := readDigits_toDigitsCore (n + 1) n (by omega) r
    have h45 : c.toNat ≠ 45 := by
      intro h
      have : digitValue c = none := by simp [digitValue, h]
      simp [this] at hc
    have hl : (formatInt (Int.ofNat n)).toList = c :: t := by
      simp [formatInt, Nat.repr, Nat.toDigits, List.asString, hct]
    rw [hl]
    have hrd2 : readDigits 0 (c :: (t ++ r)) = (n, r) := by
      rw [← List.cons_append, ← hct, hrd, stop]
    simp [readInt, readNat, h45, hc, hrd2]
  | negSucc n =>
    obtain ⟨c, t, hct, hc, hrd⟩ := readDigits_toDigitsCore (n + 1 + 1) (n + 1) (by omega) r
    have hl : (formatInt (Int.negSucc n)).toList = Char.ofNat 45 :: c :: t := by
      simp [formatInt, Nat.repr, Nat.toDigits, List.asString, hct]
    rw [hl]
    have hrd2 : readDigits 0 (c :: (t ++ r)) = (n + 1, r) := by
      rw [← List.cons_append, ← hct, hrd, stop]
    have hm : (Char.ofNat 45).toNat = 45 := by decide
    simp [readInt, readNat, hm, hc, hrd2, Int.negSucc_eq]

theorem expect_append (p r : List Char) : expect p (p ++ r) = some r := by
  induction p with
  | nil => rfl
  | cons a t ih => simp [expect, ih]

theorem readMessage_of (body txt : List Char)
    (h : readString ReadMode.plain (body ++ dquote :: [Char.ofNat 125, Char.ofNat 10]) =
      some (txt, [Char.ofNat 125, Char.ofNat 10])) :
    readMessage (messageKey ++ dquote :: (body ++
      dquote :: [Char.ofNat 125, Char.ofNat 10])) = some (String.mk txt) := by
  have e : messageKey ++ dquote :: (body ++ dquote :: [Char.ofNat 125, Char.ofNat 10]) =
      (messageKey ++ [dquote]) ++ (body ++ dquote :: [Char.ofNat 125, Char.ofNat 10]) := by
    simp
  rw [e]
  simp only [readMessage, expect_append, h]
  simp

theorem readMessage_encoded (s : String) :
    readMessage (messageKey ++ dquote :: (escapeAll s.toList ++
      dquote :: [Char.ofNat 125, Char.ofNat 10])) = some s := by
  have h : messageKey ++ dquote :: (escapeAll s.toList ++
      dquote :: [Char.ofNat 125, Char.ofNat 10]) =
      (messageKey ++ [dquote]) ++ (escapeAll s.toList ++
        dquote :: [Char.ofNat 125, Char.ofNat 10]) := by simp
  rw [h]
  simp only [readMessage, expect_append, readString_escapeAll]
  simp

theorem envelopeJSON_toList (c : Int) (s : String) :
    (envelopeJSON c s ++ "\n").toList =
      Char.ofNat 123 :: (codeKey ++ ((formatInt c).toList ++ ',' :: (messageKey ++
        dquote :: (escapeAll s.toList ++ dquote :: [Char.ofNat 125, Char.ofNat 10])))) := by
  simp [envelopeJSON, encodeObject, encodeMember, String.intercalate, String.intercalate.go,
    jsonString, codeKey, messageKey]

theorem messageOnlyJSON_toList (s : String) :
    (messageOnlyJSON s ++ "\n").toList =
      Char.ofNat 123 :: (messageKey ++
        dquote :: (escapeAll s.toList ++ dquote :: [Char.ofNat 125, Char.ofNat 10])) := by
  simp [messageOnlyJSON, encodeObject, encodeMember, String.intercalate, String.intercalate.go,
    jsonString, messageKey]

/-- The body written for an envelope with a code denotes that code and that message. -/
theorem decodeEnvelope_envelopeJSON (c : Int) (s : String) :
    decodeEnvelope (envelopeJSON c s ++ "\n") = some (some c, s) := by
  have hcomma : ∀ (a : Char) (t : List Char),
      (',' :: (messageKey ++ dquote :: (escapeAll s.toList ++
        dquote :: [Char.ofNat 125, Char.ofNat 10]))) = a :: t → digitValue a = none := by
    intro a t h
    have ha : a = ',' := by
      injection h with h1 _
      exact h1.symm
    subst ha
    rfl
  have h123 : (Char.ofNat 123).toNat = 123 := by decide
  simp only [decodeEnvelope, envelopeJSON_toList, h123, if_true, expect_append,
    readInt_formatInt c _ hcomma]
  simp [expect]
  exact readMessage_encoded s

/-- The body written for an envelope without a code denotes no code and that message. -/
theorem decodeEnvelope_messageOnlyJSON (s : String) :
    decodeEnvelope (messageOnlyJSON s ++ "\n") = some (none, s) := by
  have h123 : (Char.ofNat 123).toNat = 123 := by decide
  have hno : ∀ r : List Char, expect codeKey (messageKey ++ r) = none := by
    intro r
    rfl
  simp only [decodeEnvelope, messageOnlyJSON_toList, h123, if_true, hno]
  simp
  exact readMessage_encoded s

theorem members_toList (c : Int) (g : GoString) :
    (encodeObject (ResponseResult.members ⟨c, g⟩) ++ "\n").toList =
      if c = 0 then
        Char.ofNat 123 :: (messageKey ++ dquote :: (appendStringLoop g.length g ++
          dquote :: [Char.ofNat 125, Char.ofNat 10]))
      else
        Char.ofNat 123 :: (codeKey ++ ((formatInt c).toList ++ ',' :: (messageKey ++
          dquote :: (appendStringLoop g.length g ++
            dquote :: [Char.ofNat 125, Char.ofNat 10])))) := by
  by_cases hc : c = 0
  · simp [ResponseResult.members, hc, encodeObject, encodeMember, String.intercalate,
      String.intercalate.go, appendString, messageKey]
  · simp [ResponseResult.members, hc, encodeObject, encodeMember, String.intercalate,
      String.intercalate.go, appendString, codeKey, messageKey]

/-- The body the encoder writes for an envelope, read back: the code, unless it
is zero, and the message with every invalid byte replaced by U+FFFD. -/
theorem decodeEnvelope_members (c : Int) (g : GoString) :
    decodeEnvelope (encodeObject (ResponseResult.members ⟨c, g⟩) ++ "\n") =
      some (if c = 0 then none else some c, messageText g) := by
  have hm := readMessage_of (appendStringLoop g.length g) (replaceInvalid g.length g)
    (readString_appendStringLoop _ _ _)
  have h123 : (Char.ofNat 123).toNat = 123 := by decide
  by_cases hc : c = 0
  · have hno : ∀ r : List Char, expect codeKey (messageKey ++ r) = none := by
      intro r
      rfl
    simp only [decodeEnvelope, members_toList, hc, if_true, h123, hno, hm, messageText]
    simp
  · have hcomma : ∀ (a : Char) (t : List Char),
        (',' :: (messageKey ++ dquote :: (appendStringLoop g.length g ++
          dquote :: [Char.ofNat 125, Char.ofNat 10]))) = a :: t → digitValue a = none := by
      intro a t h
      have ha : a = ',' := by
        injection h with h1 _
        exact h1.symm
      subst ha
      rfl
    simp only [decodeEnvelope, members_toList, hc, if_false, h123, if_true, expect_append,
      readInt_formatInt c _ hcomma]
    simp [expect, hm, messageText, hc]

/-! ## The tests of `response_test.go`, replayed on the model -/

/-- The encoder of UTF-8 on a text of one, two, three and four byte characters
(`a`, U+00E9, U+20AC, U+1F600), and the decoder on an overlong form, a
surrogate, a rune above U+10FFFF and a truncated form. -/
theorem utf8_samples :
    (utf8 (String.mk [Char.ofNat 97, Char.ofNat 233, Char.ofNat 8364, Char.ofNat 128512])).map
        Fin.val = [97, 195, 169, 226, 130, 172, 240, 159, 152, 128] ∧
    DecodeRune [226, 130, 172, 33] = some (Char.ofNat 8364, [33]) ∧
    DecodeRune [192, 128] = none ∧
    DecodeRune [237, 160, 128] = none ∧
    DecodeRune [244, 144, 128, 128] = none ∧
    DecodeRune [226, 130] = none ∧
    messageText [226, 130, 33] = String.mk [Char.ofNat 65533, Char.ofNat 65533, Char.ofNat 33] := by
  decide

theorem TestSuccess :
    (((New NewRecorder).Success (Any.string (utf8 "Success message"))).writer.Code = 200 ∧
      ((New NewRecorder).Success (Any.string (utf8 "Success message"))).writer.Body =
        "\x7b\"code\":200,\"message\":\"Success message\"\x7d\n" ∧
      ((New NewRecorder).Success (Any.string (utf8 "Success message"))).writer.header.Get
        "Content-Type" = "application/json") ∧
    (((New NewRecorder).Success
        (Any.value ⟨none, none, some "\x7b\"key\":\"value\"\x7d"⟩)).writer.Code = 200 ∧
      ((New NewRecorder).Success
        (Any.value ⟨none, none, some "\x7b\"key\":\"value\"\x7d"⟩)).writer.Body =
        "\x7b\"key\":\"value\"\x7d\n") := by
  decide

theorem TestError :
    (((New NewRecorder).Error (Any.string (utf8 "Something went wrong"))).writer.Code = 500 ∧
      ((New NewRecorder).Error (Any.string (utf8 "Something went wrong"))).writer.Body =
        "\x7b\"code\":500,\"message\":\"Something went wrong\"\x7d\n") ∧
    (((New NewRecorder).Error (Any.value ⟨some (utf8 "internal error"), none, some "\x7b\x7d"⟩)).writer.Code
        = 500 ∧
      ((New NewRecorder).Error (Any.value ⟨some (utf8 "internal error"), none, some "\x7b\x7d"⟩)).writer.Body
        = "\x7b\"code\":500,\"message\":\"internal error\"\x7d\n") ∧
    (((New NewRecorder).Error
        (Any.value ⟨none, some (400, utf8 "Invalid input"), some "\x7b\x7d"⟩)).writer.Code = 400 ∧
      ((New NewRecorder).Error
        (Any.value ⟨none, some (400, utf8 "Invalid input"), some "\x7b\x7d"⟩)).writer.Body =
        "\x7b\"code\":400,\"message\":\"Invalid input\"\x7d\n") ∧
    (((New NewRecorder).Error Any.nil).writer.Code = 500 ∧
      ((New NewRecorder).Error Any.nil).writer.Body =
        "\x7b\"code\":500,\"message\":\"Internal Server Error\"\x7d\n") ∧
    (((New NewRecorder).Error (Any.value ⟨none, none, some "42"⟩)).writer.Code = 500 ∧
      ((New NewRecorder).Error (Any.value ⟨none, none, some "42"⟩)).writer.Body =
        "\x7b\"code\":500,\"message\":\"Internal Server Error\"\x7d\n" ∧
      ((New NewRecorder).Error (Any.value ⟨none, none, some "42"⟩)).writer.header.Get
        "Content-Type" = "application/json") := by
  decide

theorem TestBadRequest :
    ((New NewRecorder).BadRequest (Any.string (utf8 "Invalid request"))).writer.Code = 400 ∧
    ((New NewRecorder).BadRequest (Any.string (utf8 "Invalid request"))).writer.Body =
      "\x7b\"code\":400,\"message\":\"Invalid request\"\x7d\n" ∧
    ((New NewRecorder).BadRequest
      (Any.value ⟨none, none, some "\x7b\"error\":\"Invalid request\"\x7d"⟩)).writer.Body =
      "\x7b\"error\":\"Invalid request\"\x7d\n" := by
  decide

theorem TestTooManyRequests :
    ((New NewRecorder).TooManyRequests (Any.string (utf8 "Too Many Requests"))).writer.Code = 429 ∧
    ((New NewRecorder).TooManyRequests (Any.string (utf8 "Too Many Requests"))).writer.Body =
      "\x7b\"code\":429,\"message\":\"Too Many Requests\"\x7d\n" := by
  decide

theorem TestNoContent :
    ((New NewRecorder).NoContent).writer.Code = 204 ∧
    ((New NewRecorder).NoContent).writer.Body = "" ∧
    ((New NewRecorder).NoContent).writer.header.Get "Content-Type" = "application/json" := by
  decide

theorem TestAddHeader :
    ((New NewRecorder).AddHeader "X-Custom-Header" "value").writer.header.Get
      "X-Custom-Header" = "value" := by
  decide

theorem TestDeleteHeader :
    (((New NewRecorder).AddHeader "X-Custom-Header" "value").DeleteHeader
      "X-Custom-Header").writer.header.Get "X-Custom-Header" = "" := by
  decide

/-! ## The claims -/

/-- C1, as amended: for every fixed-status method `M` and every Go string `g`,
`M` on a writer made by `New` sets the content type, writes the status of `M`
and then one body, the envelope of that status and `g` as the encoder marshals
it; the same calls are made for an error value whose `Error()` text is `g`,
whatever else the value implements and however it would marshal.  Read back,
the body gives the code of `M` and the message `g` with every byte that is no
valid UTF-8 replaced by U+FFFD.  When `g` is valid UTF-8, the encoding of a
text `s`, the body is the JSON envelope with the code of `M` and the message
`s`, and the message read back is `s`. -/
theorem C1_fixed_status_envelope (w : ResponseWriter) (M : FixedMethod) (s : String) :
    (∀ g : GoString,
      (M.call (New w) (Any.string g)).writer.calls =
        w.calls ++ [contentTypeSet, SinkCall.WriteHeader M.status,
          SinkCall.Write (encodeObject (ResponseResult.members ⟨M.status, g⟩) ++ "\n")] ∧
      (∀ (a : Option (Int × GoString)) (j : Option String),
        (M.call (New w) (Any.value ⟨some g, a, j⟩)).writer.calls =
          w.calls ++ [contentTypeSet, SinkCall.WriteHeader M.status,
            SinkCall.Write (encodeObject (ResponseResult.members ⟨M.status, g⟩) ++ "\n")]) ∧
      decodeEnvelope (encodeObject (ResponseResult.members ⟨M.status, g⟩) ++ "\n") =
        some (some M.status, messageText g)) ∧
    (M.call (New w) (Any.string (utf8 s))).writer.calls =
        w.calls ++ [contentTypeSet, SinkCall.WriteHeader M.status,
          SinkCall.Write (envelopeJSON M.status s ++ "\n")] ∧
    (∀ (a : Option (Int × GoString)) (j : Option String),
      (M.call (New w) (Any.value ⟨some (utf8 s), a, j⟩)).writer.calls =
        w.calls ++ [contentTypeSet, SinkCall.WriteHeader M.status,
          SinkCall.Write (envelopeJSON M.status s ++ "\n")]) ∧
    decodeEnvelope (envelopeJSON M.status s ++ "\n") = some (some M.status, s) ∧
    messageText (utf8 s) = s := by
  have hgen : ∀ g : GoString,
      (M.call (New w) (Any.string g)).writer.calls =
        w.calls ++ [contentTypeSet, SinkCall.WriteHeader M.status,
          SinkCall.Write (encodeObject (ResponseResult.members ⟨M.status, g⟩) ++ "\n")] ∧
      (∀ (a : Option (Int × GoString)) (j : Option String),
        (M.call (New w) (Any.value ⟨some g, a, j⟩)).writer.calls =
          w.calls ++ [contentTypeSet, SinkCall.WriteHeader M.status,
            SinkCall.Write (encodeObject (ResponseResult.members ⟨M.status, g⟩) ++ "\n")]) ∧
      decodeEnvelope (encodeObject (ResponseResult.members ⟨M.status, g⟩) ++ "\n") =
        some (some M.status, messageText g) := by
    intro g
    refine ⟨?_, fun a j => ?_, ?_⟩
    · rw [FixedMethod.call_eq, New_writeResponse_calls]
      simp [bodyOf, Any.asError, Any.asString]
    · rw [FixedMethod.call_eq, New_writeResponse_calls]
      simp [bodyOf, Any.asError]
    · rw [decodeEnvelope_members, if_neg M.status_ne_zero]
  refine ⟨hgen, ?_, fun a j => ?_, decodeEnvelope_envelopeJSON _ _, messageText_utf8 s⟩
  · rw [(hgen (utf8 s)).1, members_of_ne_zero _ _ M.status_ne_zero]
  · rw [(hgen (utf8 s)).2.1 a j, members_of_ne_zero _ _ M.status_ne_zero]

/-- C1 at the end-to-end example of the specification: `TooManyRequests` on the
text `slow down`. -/
theorem C1_fixed_status_envelope_witness :
    (FixedMethod.TooManyRequests.call (New NewRecorder)
        (Any.string (utf8 "slow down"))).writer.calls =
      NewRecorder.calls ++ [contentTypeSet,
        SinkCall.WriteHeader FixedMethod.TooManyRequests.status,
        SinkCall.Write (envelopeJSON FixedMethod.TooManyRequests.status "slow down" ++ "\n")] ∧
    envelopeJSON FixedMethod.TooManyRequests.status "slow down" ++ "\n" =
      "\x7b\"code\":429,\"message\":\"slow down\"\x7d\n" :=
  ⟨(C1_fixed_status_envelope NewRecorder FixedMethod.TooManyRequests "slow down").2.1,
    by decide⟩

/-- C1 as stated fails at a string that is not valid UTF-8, the bytes `a`, 0xFF,
`b`: `Ok` writes status 200 and an envelope whose message has U+FFFD in the
place of the byte 0xFF, so the message in the body is not the string. -/
theorem C1_counterexample :
    ((New NewRecorder).Ok (Any.string [97, 255, 98])).writer.calls =
      [contentTypeSet, SinkCall.WriteHeader 200,
        SinkCall.Write "\x7b\"code\":200,\"message\":\"a\\ufffdb\"\x7d\n"] ∧
    decodeEnvelope "\x7b\"code\":200,\"message\":\"a\\ufffdb\"\x7d\n" =
      some (some 200, String.mk ['a', Char.ofNat 65533, 'b']) ∧
    messageText [97, 255, 98] = String.mk ['a', Char.ofNat 65533, 'b'] ∧
    utf8 (String.mk ['a', Char.ofNat 65533, 'b']) ≠ [97, 255, 98] := by
  decide

/-- C2, as amended: for every non-nil payload `p` that is neither a string nor
an error value and that `json.Marshal` serialises to `j`, every fixed-status
method `M` sets the content type, writes the status of `M` and then one body,
`j` followed by a newline, with no envelope around it. -/
theorem C2_pass_through (w : ResponseWriter) (M : FixedMethod) (p : Any) (j : String)
    (hnil : p ≠ Any.nil) (hstr : p.asString = none) (herr : p.asError = none)
    (hj : Marshal p = some j) :
    (M.call (New w) p).writer.calls =
      w.calls ++ [contentTypeSet, SinkCall.WriteHeader M.status, SinkCall.Write (j ++ "\n")] := by
  rw [FixedMethod.call_eq, New_writeResponse_calls]
  simp [bodyOf, hnil, hstr, herr, hj]

/-- C2 at a map: `BadRequest` on a value that marshals to `{"error":"bad"}`. -/
theorem C2_pass_through_witness :
    Any.value ⟨none, none, some "\x7b\"error\":\"bad\"\x7d"⟩ ≠ Any.nil ∧
    (Any.value ⟨none, none, some "\x7b\"error\":\"bad\"\x7d"⟩).asString = none ∧
    (Any.value ⟨none, none, some "\x7b\"error\":\"bad\"\x7d"⟩).asError = none ∧
    Marshal (Any.value ⟨none, none, some "\x7b\"error\":\"bad\"\x7d"⟩) =
      some "\x7b\"error\":\"bad\"\x7d" ∧
    (FixedMethod.BadRequest.call (New NewRecorder)
        (Any.value ⟨none, none, some "\x7b\"error\":\"bad\"\x7d"⟩)).writer.calls =
      NewRecorder.calls ++ [contentTypeSet, SinkCall.WriteHeader FixedMethod.BadRequest.status,
        SinkCall.Write ("\x7b\"error\":\"bad\"\x7d" ++ "\n")] :=
  ⟨by decide, by decide, by decide, by decide,
    C2_pass_through NewRecorder FixedMethod.BadRequest
      (Any.value ⟨none, none, some "\x7b\"error\":\"bad\"\x7d"⟩)
      "\x7b\"error\":\"bad\"\x7d" (by decide) (by decide) (by decide) (by decide)⟩

/-- C2 as stated fails at a payload that cannot be marshalled (a channel, say,
which is non-nil, no string and no error value): `Ok` writes the status and
no body at all, so the body is not the JSON serialisation of the payload. -/
theorem C2_counterexample :
    Any.value ⟨none, none, none⟩ ≠ Any.nil ∧
    (Any.value ⟨none, none, none⟩).asString = none ∧
    (Any.value ⟨none, none, none⟩).asError = none ∧
    Marshal (Any.value ⟨none, none, none⟩) = none ∧
    ((New NewRecorder).Ok (Any.value ⟨none, none, none⟩)).writer.calls =
      [contentTypeSet, SinkCall.WriteHeader 200] ∧
    ((New NewRecorder).Ok (Any.value ⟨none, none, none⟩)).writer.bodyWrites = [] := by
  decide

/-- C3, as amended: for every payload with the status and message capability,
reporting code `c` and a message `g`, `Error` sets the content type, writes
status `c` and then one body, the envelope of `c` and `g` as the encoder
marshals it; this holds whether or not the payload is also an error value,
whatever its `Error()` text `t`, and however it would marshal.  Read back, the
body gives the code `c` (none for zero) and the message `g` with every byte
that is no valid UTF-8 replaced by U+FFFD.  When `g` is valid UTF-8, the
encoding of a text `m`, the body is the JSON envelope of `c` and `m` (without
the `code` member when `c` is zero), and the message read back is `m`. -/
theorem C3_error_capability (w : ResponseWriter) (c : Int) (m : String)
    (t : Option GoString) (j : Option String) :
    (∀ g : GoString,
      ((New w).Error (Any.value ⟨t, some (c, g), j⟩)).writer.calls =
        w.calls ++ [contentTypeSet, SinkCall.WriteHeader c,
          SinkCall.Write (encodeObject (ResponseResult.members ⟨c, g⟩) ++ "\n")] ∧
      decodeEnvelope (encodeObject (ResponseResult.members ⟨c, g⟩) ++ "\n") =
        some (if c = 0 then none else some c, messageText g)) ∧
    ((New w).Error (Any.value ⟨t, some (c, utf8 m), j⟩)).writer.calls =
      w.calls ++ [contentTypeSet, SinkCall.WriteHeader c,
        SinkCall.Write ((if c = 0 then messageOnlyJSON m else envelopeJSON c m) ++ "\n")] ∧
    decodeEnvelope ((if c = 0 then messageOnlyJSON m else envelopeJSON c m) ++ "\n") =
      some (if c = 0 then none else some c, m) ∧
    messageText (utf8 m) = m := by
  have hgen : ∀ g : GoString,
      ((New w).Error (Any.value ⟨t, some (c, g), j⟩)).writer.calls =
        w.calls ++ [contentTypeSet, SinkCall.WriteHeader c,
          SinkCall.Write (encodeObject (ResponseResult.members ⟨c, g⟩) ++ "\n")] := by
    intro g
    unfold Response.Error
    rw [New_writeResponse_calls]
    simp [bodyOf, Any.asError, Any.asString, Any.asAppError, Marshal, newResponseResult]
  refine ⟨fun g => ⟨hgen g, decodeEnvelope_members c g⟩, ?_, ?_, messageText_utf8 m⟩
  · rw [hgen (utf8 m)]
    by_cases hc : c = 0
    · subst hc
      simp [members_of_zero]
    · simp [members_of_ne_zero _ _ hc, hc]
  · by_cases hc : c = 0
    · simp only [hc, if_true]
      exact decodeEnvelope_messageOnlyJSON m
    · simp only [hc, if_false]
      exact decodeEnvelope_envelopeJSON c m

/-- C3 at the value of the repository's test, code 400 and message
`Invalid input`, here also an error value with another `Error()` text. -/
theorem C3_error_capability_witness :
    ((New NewRecorder).Error
        (Any.value ⟨some (utf8 "boom"), some (400, utf8 "Invalid input"), none⟩)).writer.calls =
      NewRecorder.calls ++ [contentTypeSet, SinkCall.WriteHeader 400,
        SinkCall.Write
          ((if (400 : Int) = 0 then messageOnlyJSON "Invalid input"
            else envelopeJSON 400 "Invalid input") ++ "\n")] ∧
    envelopeJSON 400 "Invalid input" ++ "\n" =
      "\x7b\"code\":400,\"message\":\"Invalid input\"\x7d\n" :=
  ⟨(C3_error_capability NewRecorder 400 "Invalid input" (some (utf8 "boom")) none).2.1,
    by decide⟩

/-- C3 as stated fails at a capability value whose message is not valid UTF-8,
the single byte 0xFF, with code 400: `Error` writes status 400 and an envelope
whose message is U+FFFD, not the message the value reports. -/
theorem C3_counterexample :
    ((New NewRecorder).Error (Any.value ⟨none, some (400, [255]), none⟩)).writer.calls =
      [contentTypeSet, SinkCall.WriteHeader 400,
        SinkCall.Write "\x7b\"code\":400,\"message\":\"\\ufffd\"\x7d\n"] ∧
    decodeEnvelope "\x7b\"code\":400,\"message\":\"\\ufffd\"\x7d\n" =
      some (some 400, String.mk [Char.ofNat 65533]) ∧
    utf8 (String.mk [Char.ofNat 65533]) ≠ [255] := by
  decide

/-- C4, as amended: for every payload without the status and message
capability, `Error` sets the content type, writes status 500 and then one
body, the envelope of 500 and a message as the encoder marshals it; the
message is the payload when it is a string, its `Error()` text when it is an
error value, and `Internal Server Error` otherwise.  Read back, the body gives
the code 500 and that message with every byte that is no valid UTF-8 replaced
by U+FFFD.  When the message is valid UTF-8, the encoding of a text `t`, the
body is the JSON envelope with code 500 and message `t`, and the message read
back is `t`. -/
theorem C4_error_fallback (w : ResponseWriter) (p : Any) (hcap : p.asAppError = none) :
    ((New w).Error p).writer.calls =
      w.calls ++ [contentTypeSet, SinkCall.WriteHeader 500,
        SinkCall.Write
          (encodeObject (ResponseResult.members ⟨500, fallbackMessage p⟩) ++ "\n")] ∧
    decodeEnvelope (encodeObject (ResponseResult.members ⟨500, fallbackMessage p⟩) ++ "\n") =
      some (some 500, messageText (fallbackMessage p)) ∧
    (∀ t : String, fallbackMessage p = utf8 t →
      ((New w).Error p).writer.calls =
        w.calls ++ [contentTypeSet, SinkCall.WriteHeader 500,
          SinkCall.Write (envelopeJSON 500 t ++ "\n")] ∧
      decodeEnvelope (envelopeJSON 500 t ++ "\n") = some (some 500, t) ∧
      messageText (fallbackMessage p) = t) := by
  have hgen : ((New w).Error p).writer.calls =
      w.calls ++ [contentTypeSet, SinkCall.WriteHeader 500,
        SinkCall.Write
          (encodeObject (ResponseResult.members ⟨500, fallbackMessage p⟩) ++ "\n")] := by
    unfold Response.Error
    rw [New_writeResponse_calls]
    have h500 : StatusText StatusInternalServerError = utf8 "Internal Server Error" := by
      decide
    cases p with
    | nil =>
      simp [bodyOf, Any.asError, Any.asString, Any.asAppError, Marshal, newResponseResult,
        fallbackMessage, h500]
    | string s =>
      simp [bodyOf, Any.asError, Any.asString, Any.asAppError, Marshal, newResponseResult,
        fallbackMessage]
    | responseResult r =>
      simp [bodyOf, Any.asError, Any.asString, Any.asAppError, Marshal, newResponseResult,
        fallbackMessage, h500]
    | value v =>
      have hv : v.appError = none := hcap
      cases he : v.errorText with
      | none =>
        simp [bodyOf, Any.asError, Any.asString, Any.asAppError, Marshal, newResponseResult,
          fallbackMessage, h500, hv, he]
      | some t =>
        simp [bodyOf, Any.asError, Any.asString, Any.asAppError, Marshal, newResponseResult,
          fallbackMessage, hv, he]
  refine ⟨hgen, ?_, fun t ht => ⟨?_, decodeEnvelope_envelopeJSON _ _, ?_⟩⟩
  · rw [decodeEnvelope_members, if_neg (by decide)]
  · rw [hgen, ht, members_of_ne_zero _ _ (by decide)]
  · rw [ht, messageText_utf8]

/-- C4 at the number 42, a value that is no string, no error value and has no
capability: status 500 and the text of status 500. -/
theorem C4_error_fallback_witness :
    (Any.value ⟨none, none, some "42"⟩).asAppError = none ∧
    fallbackMessage (Any.value ⟨none, none, some "42"⟩) = utf8 "Internal Server Error" ∧
    ((New NewRecorder).Error (Any.value ⟨none, none, some "42"⟩)).writer.calls =
      NewRecorder.calls ++ [contentTypeSet, SinkCall.WriteHeader 500,
        SinkCall.Write (envelopeJSON 500 "Internal Server Error" ++ "\n")] :=
  ⟨by decide, by decide,
    ((C4_error_fallback NewRecorder (Any.value ⟨none, none, some "42"⟩) (by decide)).2.2
      "Internal Server Error" (by decide)).1⟩

/-- C4 as stated fails at a string payload that is not valid UTF-8, the single
byte 0xFF: `Error` writes status 500 and an envelope whose message is U+FFFD,
not the payload. -/
theorem C4_counterexample :
    (Any.string [255]).asAppError = none ∧
    ((New NewRecorder).Error (Any.string [255])).writer.calls =
      [contentTypeSet, SinkCall.WriteHeader 500,
        SinkCall.Write "\x7b\"code\":500,\"message\":\"\\ufffd\"\x7d\n"] ∧
    decodeEnvelope "\x7b\"code\":500,\"message\":\"\\ufffd\"\x7d\n" =
      some (some 500, String.mk [Char.ofNat 65533]) ∧
    utf8 (String.mk [Char.ofNat 65533]) ≠ [255] := by
  decide

/-- C5: after any chain of `AddHeader` and `DeleteHeader` calls on a writer made
by `New`, `NoContent` sets the content type and writes status 204 and makes
no other call on the sink: no body is written, and the body writes the sink
holds are those it held before the writer was made. -/
theorem C5_no_content (w : ResponseWriter) (cs : List HeaderCall) :
    ((runHeaderCalls (New w) cs).NoContent).writer.calls =
        (runHeaderCalls (New w) cs).writer.calls ++
          [contentTypeSet, SinkCall.WriteHeader 204] ∧
    ((runHeaderCalls (New w) cs).NoContent).writer.statusWrites =
        (runHeaderCalls (New w) cs).writer.statusWrites ++ [204] ∧
    ((runHeaderCalls (New w) cs).NoContent).writer.bodyWrites = w.bodyWrites := by
  have hcalls : ((runHeaderCalls (New w) cs).NoContent).writer.calls =
      (runHeaderCalls (New w) cs).writer.calls ++
        [contentTypeSet, SinkCall.WriteHeader 204] := by
    unfold Response.NoContent
    rw [writeResponse_calls, runHeaderCalls_headers]
    simp [New, contentTypeSet, bodyOf]
  refine ⟨hcalls, ?_, ?_⟩
  · simp [ResponseWriter.statusWrites, hcalls, List.filterMap_append, contentTypeSet]
  · have hb := runHeaderCalls_bodyWrites (New w) cs
    simp only [ResponseWriter.bodyWrites] at hb ⊢
    rw [hcalls, List.filterMap_append, hb]
    simp [contentTypeSet, New]

/-- C6, as amended: on a writer made by `New`, after any chain of header calls,
`AddHeader(k, v)` followed by `DeleteHeader(k)` leaves the sink with no entry
and no value for `k`; after a subsequent outcome method the sink still holds
no value for `k` when the canonical form of `k` is not `Content-Type`, and
holds the single value `application/json` for `k` when it is. -/
theorem C6_add_then_delete (w : ResponseWriter) (cs : List HeaderCall) (k v : String) :
    ((((runHeaderCalls (New w) cs).AddHeader k v).DeleteHeader k).writer.header.lookup
        (CanonicalMIMEHeaderKey k) = none ∧
      (((runHeaderCalls (New w) cs).AddHeader k v).DeleteHeader k).writer.header.Values k = [] ∧
      (((runHeaderCalls (New w) cs).AddHeader k v).DeleteHeader k).writer.header.Get k = "") ∧
    (∀ o : Outcome, CanonicalMIMEHeaderKey k ≠ "Content-Type" →
      (o.run (((runHeaderCalls (New w) cs).AddHeader k v).DeleteHeader k)).writer.header.Values k
          = [] ∧
      (o.run (((runHeaderCalls (New w) cs).AddHeader k v).DeleteHeader k)).writer.header.Get k
          = "") ∧
    (∀ o : Outcome, CanonicalMIMEHeaderKey k = "Content-Type" →
      (o.run (((runHeaderCalls (New w) cs).AddHeader k v).DeleteHeader k)).writer.header.Values k
          = ["application/json"]) := by
  have hdel : (((runHeaderCalls (New w) cs).AddHeader k v).DeleteHeader k).writer.header.lookup
      (CanonicalMIMEHeaderKey k) = none := by
    simp [Response.AddHeader, Response.DeleteHeader, ResponseWriter.headerAdd,
      ResponseWriter.headerDel, Header.Del, Header.lookup_remove_self]
  have hhs : (((runHeaderCalls (New w) cs).AddHeader k v).DeleteHeader k).headers =
      [("Content-Type", "application/json")] := by
    simp [Response.AddHeader, Response.DeleteHeader, runHeaderCalls_headers, New]
  refine ⟨⟨hdel, ?_, ?_⟩, fun o hk => ?_, fun o hk => ?_⟩
  · simp [Header.Values, hdel]
  · simp [Header.Get, hdel]
  · have hl : (o.run (((runHeaderCalls (New w) cs).AddHeader k v).DeleteHeader k)).writer.header.lookup
        (CanonicalMIMEHeaderKey k) = none := by
      rw [Outcome.run_header_default o _ hhs, Header.lookup_store_ne _ _ _ _ hk, hdel]
    simp [Header.Values, Header.Get, hl]
  · have hl : (o.run (((runHeaderCalls (New w) cs).AddHeader k v).DeleteHeader k)).writer.header.lookup
        (CanonicalMIMEHeaderKey k) = some ["application/json"] := by
      rw [Outcome.run_header_default o _ hhs, hk, Header.lookup_store_self]
    simp [Header.Values, hl]

/-- C6 at the header of the repository's test: `X-Custom-Header` is absent after
the delete and after a following `Ok`. -/
theorem C6_add_then_delete_witness :
    CanonicalMIMEHeaderKey "X-Custom-Header" ≠ "Content-Type" ∧
    ((Outcome.fixed FixedMethod.Ok (Any.string (utf8 "done"))).run
      (((runHeaderCalls (New NewRecorder) []).AddHeader "X-Custom-Header" "value").DeleteHeader
        "X-Custom-Header")).writer.header.Values "X-Custom-Header" = [] :=
  ⟨by decide,
    ((C6_add_then_delete NewRecorder [] "X-Custom-Header" "value").2.1
      (Outcome.fixed FixedMethod.Ok (Any.string (utf8 "done"))) (by decide)).1⟩

/-- C6 as stated fails at the key `Content-Type`: after `AddHeader` and
`DeleteHeader` the sink holds no value for it, but the response written by a
following `NoContent` (or `Ok`) carries `Content-Type: application/json`. -/
theorem C6_counterexample :
    (((New NewRecorder).AddHeader "Content-Type" "text/plain").DeleteHeader
        "Content-Type").writer.header.Values "Content-Type" = [] ∧
    ((((New NewRecorder).AddHeader "Content-Type" "text/plain").DeleteHeader
        "Content-Type").NoContent).writer.header.Values "Content-Type" = ["application/json"] ∧
    ((((New NewRecorder).AddHeader "Content-Type" "text/plain").DeleteHeader
        "Content-Type").Ok (Any.string (utf8 "done"))).writer.header.Get "Content-Type"
      = "application/json" := by
  decide

/-- C7: `AddHeader(k, v)` makes one call on the sink at once, the header `Add`;
the values held for `k` afterwards are the earlier ones followed by `v`; the
entry of every other map key, and so the values of every header with another
canonical name, is unchanged; and the writer returned is the receiver, its
own header map untouched. -/
theorem C7_add_header (resp : Response) (k v : String) :
    (resp.AddHeader k v).writer.header.Values k = resp.writer.header.Values k ++ [v] ∧
    (∀ key : String, key ≠ CanonicalMIMEHeaderKey k →
      (resp.AddHeader k v).writer.header.lookup key = resp.writer.header.lookup key) ∧
    (∀ k2 : String, CanonicalMIMEHeaderKey k2 ≠ CanonicalMIMEHeaderKey k →
      (resp.AddHeader k v).writer.header.Values k2 = resp.writer.header.Values k2) ∧
    (resp.AddHeader k v).writer.calls = resp.writer.calls ++ [SinkCall.headerAdd k v] ∧
    (resp.AddHeader k v).headers = resp.headers ∧
    resp.AddHeader k v = { resp with writer := resp.writer.headerAdd k v } := by
  refine ⟨?_, fun key hk => ?_, fun k2 hk => ?_, rfl, rfl, rfl⟩
  · simp [Response.AddHeader, ResponseWriter.headerAdd, Header.Add, Header.Values,
      Header.lookup_store_self]
  · simp [Response.AddHeader, ResponseWriter.headerAdd, Header.Add,
      Header.lookup_store_ne _ _ _ _ hk]
  · simp [Response.AddHeader, ResponseWriter.headerAdd, Header.Add, Header.Values,
      Header.lookup_store_ne _ _ _ _ hk]

/-- C7 on a sink that already holds a value for the key and one for another
key: the new value comes after the old one and the other key keeps its value. -/
theorem C7_add_header_witness :
    (((New (NewRecorder.headerAdd "X-A" "1")).AddHeader "Accept" "text/html").AddHeader
        "x-a" "2").writer.header.Values "X-A" = ["1", "2"] ∧
    CanonicalMIMEHeaderKey "Accept" ≠ CanonicalMIMEHeaderKey "x-a" ∧
    (((New (NewRecorder.headerAdd "X-A" "1")).AddHeader "Accept" "text/html").AddHeader
        "x-a" "2").writer.header.Values "Accept" =
      ((New (NewRecorder.headerAdd "X-A" "1")).AddHeader "Accept" "text/html").writer.header.Values
        "Accept" :=
  ⟨by decide, by decide,
    (C7_add_header ((New (NewRecorder.headerAdd "X-A" "1")).AddHeader "Accept" "text/html")
      "x-a" "2").2.2.1 "Accept" (by decide)⟩

/-- C8, as amended: every outcome method makes, after the calls the sink had
already received, the header writes of the writer's own map, then one status
write, then at most one body write and nothing more.  A fixed-status method
writes the body exactly when the payload is non-nil and is an error value or
can be marshalled (a string always can); `NoContent` writes none; `Error`
writes exactly one, for every payload. -/
theorem C8_call_order (resp : Response) :
    (∀ (M : FixedMethod) (data : Any), ∃ body : List String,
      (M.call resp data).writer.calls =
        resp.writer.calls ++ resp.headers.map (fun e => SinkCall.headerSet e.1 e.2) ++
          [SinkCall.WriteHeader M.status] ++ body.map SinkCall.Write ∧
      body.length ≤ 1 ∧
      (body.length = 1 ↔
        data ≠ Any.nil ∧ (data.asError.isSome = true ∨ (Marshal data).isSome = true))) ∧
    (resp.NoContent).writer.calls =
      resp.writer.calls ++ resp.headers.map (fun e => SinkCall.headerSet e.1 e.2) ++
        [SinkCall.WriteHeader 204] ∧
    (∀ data : Any, ∃ (c : Int) (b : String),
      (resp.Error data).writer.calls =
        resp.writer.calls ++ resp.headers.map (fun e => SinkCall.headerSet e.1 e.2) ++
          [SinkCall.WriteHeader c] ++ [SinkCall.Write b]) := by
  refine ⟨fun M data => ⟨(bodyOf M.status data).toList, ?_, ?_, ?_⟩, ?_, fun data => ?_⟩
  · rw [FixedMethod.call_eq, writeResponse_calls]
  · cases bodyOf M.status data <;> simp
  · cases data with
    | nil => simp [bodyOf]
    | string v => simp [bodyOf, Any.asError, Any.asString, Marshal]
    | responseResult r => simp [bodyOf, Any.asError, Any.asString, Marshal]
    | value x =>
      cases he : x.errorText with
      | some t => simp [bodyOf, Any.asError, he]
      | none =>
        cases hj : x.json with
        | some j => simp [bodyOf, Any.asError, Any.asString, Marshal, he, hj]
        | none => simp [bodyOf, Any.asError, Any.asString, Marshal, he, hj]
  · unfold Response.NoContent
    rw [writeResponse_calls]
    simp [bodyOf]
  · obtain ⟨c, m, h⟩ := Error_eq_writeResponse resp data
    refine ⟨c, encodeObject (ResponseResult.members ⟨c, m⟩) ++ "\n", ?_⟩
    rw [h, writeResponse_calls]
    simp [bodyOf, Any.asError, Any.asString, Marshal]

/-- C8 at the calls of the repository's tests: `Ok("done")` on a fresh writer
writes the body, the payload being a string. -/
theorem C8_call_order_witness :
    ∃ body : List String,
      (FixedMethod.Ok.call (New NewRecorder) (Any.string (utf8 "done"))).writer.calls =
        (New NewRecorder).writer.calls ++
          (New NewRecorder).headers.map (fun e => SinkCall.headerSet e.1 e.2) ++
          [SinkCall.WriteHeader FixedMethod.Ok.status] ++ body.map SinkCall.Write ∧
      body.length ≤ 1 ∧
      (body.length = 1 ↔
        Any.string (utf8 "done") ≠ Any.nil ∧
          ((Any.string (utf8 "done")).asError.isSome = true ∨
            (Marshal (Any.string (utf8 "done"))).isSome = true)) :=
  (C8_call_order (New NewRecorder)).1 FixedMethod.Ok (Any.string (utf8 "done"))

/-- C8 as stated fails at a non-nil payload that cannot be marshalled: `Ok`
sets the content type and writes status 200, and no body write follows. -/
theorem C8_counterexample :
    Any.value ⟨none, none, none⟩ ≠ Any.nil ∧
    (FixedMethod.Ok.call (New NewRecorder) (Any.value ⟨none, none, none⟩)).writer.calls =
      [SinkCall.headerSet "Content-Type" "application/json", SinkCall.WriteHeader 200] := by
  decide

/-- C9, as amended: the members written for an envelope are `code` and
`message` when the code is not zero and `message` alone when it is, whatever
the message; read back, the envelope gives its code, unless that is zero, and
its message with every byte that is no valid UTF-8 replaced by U+FFFD.  So
for a string that is valid UTF-8, the encoding of a text `s`, writing it with
status 0, or `Error` on a capability value that reports code 0 and that
message, puts the body `{"message":s}` on the sink, and writing it with a
status `c` other than zero puts `{"code":c,"message":s}` there; read back,
the first body gives no code and the message `s`, the second the code `c`
and `s`. -/
theorem C9_code_omitted_when_zero (w : ResponseWriter) (s : String) :
    (∀ (c : Int) (g : GoString),
      (ResponseResult.members ⟨c, g⟩).map Prod.fst =
        (if c = 0 then ["message"] else ["code", "message"]) ∧
      decodeEnvelope (encodeObject (ResponseResult.members ⟨c, g⟩) ++ "\n") =
        some (if c = 0 then none else some c, messageText g)) ∧
    ((New w).writeResponse 0 (Any.string (utf8 s))).writer.calls =
      w.calls ++ [contentTypeSet, SinkCall.WriteHeader 0,
        SinkCall.Write (messageOnlyJSON s ++ "\n")] ∧
    (∀ (t : Option GoString) (j : Option String),
      ((New w).Error (Any.value ⟨t, some (0, utf8 s), j⟩)).writer.calls =
        w.calls ++ [contentTypeSet, SinkCall.WriteHeader 0,
          SinkCall.Write (messageOnlyJSON s ++ "\n")]) ∧
    (∀ c : Int, c ≠ 0 →
      ((New w).writeResponse c (Any.string (utf8 s))).writer.calls =
        w.calls ++ [contentTypeSet, SinkCall.WriteHeader c,
          SinkCall.Write (envelopeJSON c s ++ "\n")]) ∧
    decodeEnvelope (messageOnlyJSON s ++ "\n") = some (none, s) ∧
    (∀ c : Int, decodeEnvelope (envelopeJSON c s ++ "\n") = some (some c, s)) ∧
    messageText (utf8 s) = s := by
  refine ⟨fun c g => ⟨?_, decodeEnvelope_members c g⟩, ?_, fun t j => ?_, fun c hc => ?_,
    decodeEnvelope_messageOnlyJSON s, fun c => decodeEnvelope_envelopeJSON c s,
    messageText_utf8 s⟩
  · by_cases hc : c = 0 <;> simp [ResponseResult.members, hc]
  · rw [New_writeResponse_calls]
    simp [bodyOf, Any.asError, Any.asString, members_of_zero]
  · unfold Response.Error
    rw [New_writeResponse_calls]
    simp [bodyOf, Any.asError, Any.asString, Any.asAppError, Marshal, newResponseResult,
      members_of_zero]
  · rw [New_writeResponse_calls]
    simp [bodyOf, Any.asError, Any.asString, members_of_ne_zero _ _ hc]

/-- C9 at status 429: the body carries the code. -/
theorem C9_code_omitted_when_zero_witness :
    (429 : Int) ≠ 0 ∧
    ((New NewRecorder).writeResponse 429 (Any.string (utf8 "slow down"))).writer.calls =
      NewRecorder.calls ++ [contentTypeSet, SinkCall.WriteHeader 429,
        SinkCall.Write (envelopeJSON 429 "slow down" ++ "\n")] :=
  ⟨by decide, (C9_code_omitted_when_zero NewRecorder "slow down").2.2.2.1 429 (by decide)⟩

/-- C9 as stated fails at a string that is not valid UTF-8, the single byte
0xFF: written with status 0 the body has the member `message` alone, but its
message is U+FFFD, not the string. -/
theorem C9_counterexample :
    ((New NewRecorder).writeResponse 0 (Any.string [255])).writer.calls =
      [contentTypeSet, SinkCall.WriteHeader 0,
        SinkCall.Write "\x7b\"message\":\"\\ufffd\"\x7d\n"] ∧
    decodeEnvelope "\x7b\"message\":\"\\ufffd\"\x7d\n" =
      some (none, String.mk [Char.ofNat 65533]) ∧
    utf8 (String.mk [Char.ofNat 65533]) ≠ [255] := by
  decide

/-- C10: a chain of `AddHeader` and `DeleteHeader` calls leaves the writer's own
header map as `New` made it, and so does an outcome method; after the chain,
every outcome method leaves the sink with exactly the one value
`application/json` for `Content-Type`, and with the entry of every other map
key as the chain left it. -/
theorem C10_default_header_kept (w : ResponseWriter) (cs : List HeaderCall) (o : Outcome) :
    (runHeaderCalls (New w) cs).headers = [("Content-Type", "application/json")] ∧
    (o.run (runHeaderCalls (New w) cs)).headers = [("Content-Type", "application/json")] ∧
    (o.run (runHeaderCalls (New w) cs)).writer.header.lookup "Content-Type" =
      some ["application/json"] ∧
    (o.run (runHeaderCalls (New w) cs)).writer.header.Values "Content-Type" =
      ["application/json"] ∧
    (∀ key : String, key ≠ "Content-Type" →
      (o.run (runHeaderCalls (New w) cs)).writer.header.lookup key =
        (runHeaderCalls (New w) cs).writer.header.lookup key) := by
  have hhs : (runHeaderCalls (New w) cs).headers = [("Content-Type", "application/json")] := by
    rw [runHeaderCalls_headers]
    rfl
  have hl : (o.run (runHeaderCalls (New w) cs)).writer.header.lookup "Content-Type" =
      some ["application/json"] := by
    rw [Outcome.run_header_default o _ hhs, Header.lookup_store_self]
  refine ⟨hhs, ?_, hl, ?_, fun key hk => ?_⟩
  · rw [Outcome.run_headers, hhs]
  · simp [Header.Values, canonical_content_type, hl]
  · rw [Outcome.run_header_default o _ hhs, Header.lookup_store_ne _ _ _ _ hk]

/-- C10 at a chain that deletes the content type, adds another one and adds a
custom header: after `NoContent` the custom header is as the chain left it. -/
theorem C10_default_header_kept_witness :
    ("X-A" : String) ≠ "Content-Type" ∧
    (Outcome.NoContent.run (runHeaderCalls (New NewRecorder)
        [HeaderCall.DeleteHeader "Content-Type", HeaderCall.AddHeader "Content-Type" "text/plain",
          HeaderCall.AddHeader "X-A" "1"])).writer.header.lookup "X-A" =
      (runHeaderCalls (New NewRecorder)
        [HeaderCall.DeleteHeader "Content-Type", HeaderCall.AddHeader "Content-Type" "text/plain",
          HeaderCall.AddHeader "X-A" "1"]).writer.header.lookup "X-A" :=
  ⟨by decide,
    (C10_default_header_kept NewRecorder
      [HeaderCall.DeleteHeader "Content-Type", HeaderCall.AddHeader "Content-Type" "text/plain",
        HeaderCall.AddHeader "X-A" "1"] Outcome.NoContent).2.2.2.2 "X-A" (by decide)⟩

end Restfront
